import Mathlib

/-!
# A shallow embedding of `parser.cpp`

The file `parser.cpp` holds an AST node model (classes `ASTNode`, `Decl`, `Exp`,
`Statm` and their concrete subclasses) and the recursive-descent routines
`Parser::ParseProgramDecl`, `ParseVarDecl`, `ParseBinaryOpExpr`,
`ParseCallExpr`, `ParseCompoundStmt` and `ParseReturnStmt`.

* A `std::unique_ptr<T>` is an `Option ASTNode`; `nullptr` is `none`.
* The parser object (`mLexer`, `mCurrentToken`) is threaded explicitly.
* Loops run on fuel; running out of fuel is `Halt.FUEL`.
* `abort()` is `Halt.ABORT`; control that reaches the closing brace of a
  value-returning function without a `return` is `Halt.NO_RETURN`.
* The parser routines name the node classes `Expr`, `BinaryOpExpr`, `CallExpr`,
  `CompoundStmt`, `ReturnStmt`, `AddStatement`, ...; they are identified with the
  classes `Exp`, `BinOpExp`, `CallExp`, `ComplexStatm`, `ReturnStatm`,
  `addStatm`, ... that the file defines.
-/

namespace ParserSpec

/-! ## Tokens and the lexer -/

/-- Modelled from the spec: the enumeration `Lexer::Token` is declared outside
`parser.cpp`.  The routines name `TOK_EOF`, `VAR`, `FUNCTION`, `IDENTIFIER`,
`ASSIGN`, `SEMI_COLON`, `RIGHT_PAREN`, `COMMA`, `LEFT_BRACE`, `RIGHT_BRACE` and
`RETURN`; the spec adds numeric and string literals, the left parenthesis and
binary operators. -/
inductive Token
  | TOK_EOF | VAR | FUNCTION | IDENTIFIER | NUMBER | STRING
  | ASSIGN | COMMA | SEMI_COLON | LEFT_PAREN | RIGHT_PAREN
  | LEFT_BRACE | RIGHT_BRACE | RETURN
  | PLUS | MINUS | MUL | DIV
  deriving DecidableEq, Repr

/-- Modelled from the spec: `Common::Type` is declared outside `parser.cpp`.
Only the marker `VOID` is named by the source; every other declared type is
kept with its name. -/
inductive CommonType
  | VOID
  | OTHER (name : String)
  deriving DecidableEq, Repr

/-- Modelled from the spec: the text of a declared type, as handed to the
`VarDecl` constructor (`const std::string& varType`). -/
def CommonType.toStr : CommonType → String
  | .VOID => "void"
  | .OTHER name => name

/-- One lexed token: its classification, its literal text and the declared
type the lexer reports while it is current. -/
structure LexToken where
  tok : Token
  str : String
  type : CommonType
  deriving DecidableEq, Repr

/-- Modelled from the spec: the lexer is an external collaborator, a pull-based
token stream with accessors for the current literal text and the current
declared type.  `input` is what has not been pulled yet; once it is exhausted
every pull answers `TOK_EOF`. -/
structure Lexer where
  curStr : String
  curType : CommonType
  input : List LexToken
  deriving DecidableEq, Repr

/-- The call `mLexer.GetNextToken()`. -/
def Lexer.GetNextToken (l : Lexer) : Token × Lexer :=
  match l.input with
  | [] => (Token.TOK_EOF, l)
  | t :: rest => (t.tok, ⟨t.str, t.type, rest⟩)

/-- The call `mLexer.GetCurrentType()`. -/
def Lexer.GetCurrentType (l : Lexer) : CommonType := l.curType

/-- The call `mLexer.GetCurrentStr()`. -/
def Lexer.GetCurrentStr (l : Lexer) : String := l.curStr

/-- The state of a `Parser` object: its lexer and the lookahead token. -/
structure Parser where
  mLexer : Lexer
  mCurrentToken : Token
  deriving DecidableEq, Repr

/-- The statement `mCurrentToken = mLexer.GetNextToken();`. -/
def Parser.advance (p : Parser) : Parser :=
  ⟨p.mLexer.GetNextToken.2, p.mLexer.GetNextToken.1⟩

/-- A parser that has pulled nothing yet from the given token stream. -/
def Parser.init (input : List LexToken) : Parser :=
  ⟨⟨"", CommonType.VOID, input⟩, Token.TOK_EOF⟩

/-- A parser whose current token is the head of the given stream. -/
def Parser.start (input : List LexToken) : Parser :=
  (Parser.init input).advance

/-! ## The AST node model -/

/-- The enumeration `ASTNode::NodeType`.  `SPAWN_EXP` is modelled from the spec:
the parser builds a `SpawnExpr`, a class the file does not define and for which
the enumeration has no tag; the spec calls it a distinct spawn-expression
node. -/
inductive NodeType
  | ERROR
  | VAR_DECL | FUN_DECL | VAR_PARAM_DECL | PROG_DECL
  | STR_EXP | NUM_EXP | IDENTIFIER_EXP | CALL_EXP | BINARY_EXP
  | COMPEX_STATM | RETURN_STATM
  | SPAWN_EXP
  deriving DecidableEq, Repr

/-- The data members a concrete class adds to those of `ASTNode`. -/
inductive Members
  | none
  | VarDecl (name : String) (value : Int) (type : String)
  | FunDecl (returnType : String)
  | BinOpExp (op : Char)
  | IdentifierExp (type : String)
  | NumExp (value : Int)
  deriving DecidableEq, Repr

/-- An object of class `ASTNode` or of one of its subclasses: the members
`nType`, `nName`, `nChildren` of the base class and the members of the concrete
class.  A child is a `std::unique_ptr<ASTNode>` and may be null. -/
inductive ASTNode
  | mk (nType : NodeType) (nName : String) (nChildren : List (Option ASTNode))
      (members : Members)

/-- The list type `ChildNodes`. -/
abbrev ChildNodes := List (Option ASTNode)

/-- The accessor `ASTNode::getType`. -/
def ASTNode.getType : ASTNode → NodeType
  | .mk t _ _ _ => t

/-- The accessor `ASTNode::getName`. -/
def ASTNode.getName : ASTNode → String
  | .mk _ n _ _ => n

/-- The accessor `ASTNode::getChildNodes`. -/
def ASTNode.getChildNodes : ASTNode → ChildNodes
  | .mk _ _ c _ => c

/-- The members of the concrete class. -/
def ASTNode.getMembers : ASTNode → Members
  | .mk _ _ _ m => m

/-- The method `ASTNode::addChildNode`: `nChildren.emplace_back(std::move(node))`. -/
def ASTNode.addChildNode : ASTNode → Option ASTNode → ASTNode
  | .mk t n c m, node => .mk t n (c ++ [node]) m

/-- The constructor `Decl()`: a node tagged `ERROR`. -/
def Decl : ASTNode := .mk .ERROR "" [] .none

/-- The constructor `ProgramDecl()`. -/
def ProgramDecl : ASTNode := .mk .PROG_DECL "" [] .none

/-- The method `ProgramDecl::addProgramDecl`. -/
def ASTNode.addProgramDecl (self : ASTNode) (stm : Option ASTNode) : ASTNode :=
  self.addChildNode stm

/-- The constructor `VarDecl(varName, varValue, varType)`: the base class is
initialised with `NodeType::VAR_DECL`, `nName` is left empty. -/
def VarDecl (varName : String) (varValue : Int) (varType : String) : ASTNode :=
  .mk .VAR_DECL "" [] (.VarDecl varName varValue varType)

/-- Modelled from the spec: the default constructor of `VarDecl` is missing
from the file, though `ParseVarDecl` calls it (`std::make_unique<VarDecl>()`).
The default constructors the file does define, `Decl()` and `FunDecl()`, tag
their node `ERROR`, the tag the spec gives to the sentinel for "no valid node
produced here"; the placeholder is tagged the same way, and its members are
empty. -/
def VarDecl.default : ASTNode := .mk .ERROR "" [] (.VarDecl "" 0 "")

/-- The method `VarDecl::addInitialization`. -/
def ASTNode.addInitialization (self : ASTNode) (value : Option ASTNode) : Bool × ASTNode :=
  if value.isNone then (false, self)
  else (true, self.addChildNode value)

/-- The accessor `VarDecl::getVarName`. -/
def ASTNode.getVarName (self : ASTNode) : String :=
  match self.getMembers with
  | .VarDecl name _ _ => name
  | _ => ""

/-- The accessor `VarDecl::getVarType`. -/
def ASTNode.getVarType (self : ASTNode) : String :=
  match self.getMembers with
  | .VarDecl _ _ type => type
  | _ => ""

/-- What stops a run before it returns to its caller. -/
inductive Halt
  | ABORT
  | NO_RETURN
  | FUEL
  deriving DecidableEq, Repr

/-- The constructor `BinOpExp(operation, lhs, rhs)`: it calls `abort()` when an
operand is null, and otherwise adds `lhs` and then `rhs` as children. -/
def BinOpExp (operation : Char) (lhs rhs : Option ASTNode) : Except Halt ASTNode :=
  if lhs.isNone || rhs.isNone then .error .ABORT
  else .ok (((ASTNode.mk .BINARY_EXP "" [] (.BinOpExp operation)).addChildNode lhs).addChildNode rhs)

/-- The accessor `BinOpExp::getBinOp`. -/
def ASTNode.getBinOp (self : ASTNode) : Option Char :=
  match self.getMembers with
  | .BinOpExp op => some op
  | _ => none

/-- The constructor `CallExp(funName, args)`: the arguments are inserted at the
end of the (empty) child list. -/
def CallExp (funName : String) (args : ChildNodes) : ASTNode :=
  .mk .CALL_EXP funName ([] ++ args) .none

/-- The constructor `IdentifierExp(value)`; the member `type` starts empty. -/
def IdentifierExp (value : String) : ASTNode :=
  .mk .IDENTIFIER_EXP value [] (.IdentifierExp "")

/-- The constructor `NumExp(numValue)`: `nName = std::to_string(value)`. -/
def NumExp (numValue : Int) : ASTNode :=
  .mk .NUM_EXP (toString numValue) [] (.NumExp numValue)

/-- The constructor `StrExp(value)`. -/
def StrExp (value : String) : ASTNode :=
  .mk .STR_EXP value [] .none

/-- The constructor `ComplexStatm()`. -/
def ComplexStatm : ASTNode := .mk .COMPEX_STATM "" [] .none

/-- The method `ComplexStatm::addStatm`. -/
def ASTNode.addStatm (self : ASTNode) (statm : Option ASTNode) : ASTNode :=
  self.addChildNode statm

/-- The constructor `ReturnStatm()`. -/
def ReturnStatm : ASTNode := .mk .RETURN_STATM "" [] .none

/-- The method `ReturnStatm::addReturnVal`. -/
def ASTNode.addReturnVal (self : ASTNode) (value : Option ASTNode) : Bool × ASTNode :=
  if value.isNone then (false, self)
  else (true, self.addChildNode value)

/-- Modelled from the spec: the class `SpawnExpr` is missing from the file.  It
wraps the call it is given as its single child, in a node distinct from a
`CallExp`. -/
def SpawnExpr (call : Option ASTNode) : ASTNode :=
  .mk .SPAWN_EXP "" [call] .none

/-! ## The parser routines -/

/-- The outcome of a parse routine: the value it returns together with the
parser state it leaves, or the reason it did not return. -/
abbrev Run (α : Type) := Except Halt (α × Parser)

/-- The type of `Parser::ParseExpr` and of `Parser::ParseFunctionDecl`, which
the file calls and does not define. -/
abbrev SubParser := Parser → Run (Option ASTNode)

/-- Lines 334-344 of `ParseVarDecl`: the declaration is returned when the
current token is the semicolon, the placeholder `node` otherwise. -/
def ParseVarDecl.finish (node vDecl : ASTNode) (p : Parser) : Run (Option ASTNode) :=
  if p.mCurrentToken = Token.SEMI_COLON then .ok (some vDecl, p)
  else .ok (some node, p)

/-- The routine `Parser::ParseVarDecl`.  The declaration of the local `vDecl`
is missing from the file; modelled from the spec, it is the `VarDecl` built
from the identifier text and the declared type (with value `0`). -/
def ParseVarDecl (ParseExpr : SubParser) (p : Parser) : Run (Option ASTNode) :=
  let node := VarDecl.default
  let vType := p.mLexer.GetCurrentType
  match vType with
  | .VOID => .ok (some node, p)
  | .OTHER _ =>
    let p1 := p.advance
    if p1.mCurrentToken ≠ Token.IDENTIFIER then .ok (some node, p1)
    else
      let varName := p1.mLexer.GetCurrentStr
      let vDecl := VarDecl varName 0 vType.toStr
      if p1.mCurrentToken = Token.ASSIGN then
        let p2 := p1.advance
        match ParseExpr p2 with
        | .error e => .error e
        | .ok (init, p3) =>
          let r := vDecl.addInitialization init
          if !r.1 then .ok (some node, p3)
          else ParseVarDecl.finish node r.2 p3
      else ParseVarDecl.finish node vDecl p1

/-- The routine `Parser::ParseBinaryOpExpr`.  `TokenToOpcode` is called and not
defined by the file; it is a parameter. -/
def ParseBinaryOpExpr (TokenToOpcode : Token → Char) (ParseExpr : SubParser)
    (op : Token) (lhs : Option ASTNode) (p : Parser) : Run (Option ASTNode) :=
  let p1 := p.advance
  match ParseExpr p1 with
  | .error e => .error e
  | .ok (rhs, p2) =>
    if rhs.isNone then .ok (none, p2)
    else
      match BinOpExp (TokenToOpcode op) lhs rhs with
      | .error e => .error e
      | .ok n => .ok (some n, p2)

/-- The argument loop of `ParseCallExpr` (lines 377-401), from the state in
which `args` has been collected.  It answers `some args` when the loop is left
through its condition or through `break`, and `none` when one of the two
`return` statements inside the loop is taken. -/
def ParseCallExpr.loop (ParseExpr : SubParser) :
    Nat → ChildNodes → Parser → Run (Option ChildNodes)
  | 0, _, _ => .error .FUEL
  | fuel + 1, args, p =>
    if p.mCurrentToken ≠ Token.RIGHT_PAREN then
      match ParseExpr p with
      | .error e => .error e
      | .ok (arg, p1) =>
        let args1 := args ++ [arg]
        if p1.mCurrentToken = Token.RIGHT_PAREN then .ok (some args1, p1)
        else if p1.mCurrentToken = Token.COMMA then
          ParseCallExpr.loop ParseExpr fuel args1 p1.advance
        else if p1.mCurrentToken = Token.SEMI_COLON then .ok (none, p1)
        else .ok (none, p1)
    else .ok (some args, p)

/-- The routine `Parser::ParseCallExpr`.  The callee `fn` is dereferenced
without a test (`fn->GetName()`), so it is a present node. -/
def ParseCallExpr (ParseExpr : SubParser) (fuel : Nat) (fn : ASTNode)
    (isSpawnedExpr : Bool) (p : Parser) : Run (Option ASTNode) :=
  match ParseCallExpr.loop ParseExpr fuel [] p.advance with
  | .error e => .error e
  | .ok (none, p1) => .ok (none, p1)
  | .ok (some args, p1) =>
    let p2 := p1.advance
    let cExpr := CallExp fn.getName args
    if isSpawnedExpr then .ok (some (SpawnExpr (some cExpr)), p2)
    else .ok (some cExpr, p2)

/-- The routine `Parser::ParseReturnStmt`.  Its last statement is
`if (mCurrentToken != SEMI_COLON) return rStmt;`: when the current token is the
semicolon, control reaches the end of the function without a `return`. -/
def ParseReturnStmt (ParseExpr : SubParser) (p : Parser) : Run (Option ASTNode) :=
  let rStmt := ReturnStatm
  let p1 := p.advance
  match ParseExpr p1 with
  | .error e => .error e
  | .ok (value, p2) =>
    let rStmt1 := (rStmt.addReturnVal value).2
    if p2.mCurrentToken ≠ Token.SEMI_COLON then .ok (some rStmt1, p2)
    else .error .NO_RETURN

/-- The inner loop of the `FUNCTION` case of `ParseCompoundStmt` (lines
439-440). -/
def ParseCompoundStmt.skip : Nat → Parser → Except Halt Parser
  | 0, _ => .error .FUEL
  | fuel + 1, p =>
    if p.mCurrentToken ≠ Token.RIGHT_BRACE ∧ p.mCurrentToken ≠ Token.TOK_EOF then
      ParseCompoundStmt.skip fuel p.advance
    else .ok p

/-- The `switch` of `ParseCompoundStmt` (lines 427-444): the value of `node`
and the parser state after it. -/
def ParseCompoundStmt.dispatch (ParseExpr : SubParser) (fuel : Nat)
    (node : Option ASTNode) (p : Parser) : Run (Option ASTNode) :=
  match p.mCurrentToken with
  | .VAR => ParseVarDecl ParseExpr p
  | .IDENTIFIER => ParseExpr p
  | .RETURN => ParseReturnStmt ParseExpr p
  | .FUNCTION =>
    match ParseCompoundStmt.skip fuel p with
    | .error e => .error e
    | .ok p1 => .ok (node, p1)
  | _ => .ok (node, p)

/-- The statement loop of `ParseCompoundStmt` (lines 425-449).  `node` is null
after it has been moved into `AddStatement`. -/
def ParseCompoundStmt.loop (ParseExpr : SubParser) :
    Nat → ASTNode → Option ASTNode → Parser → Run ASTNode
  | 0, _, _, _ => .error .FUEL
  | fuel + 1, cStmt, node, p =>
    if p.mCurrentToken ≠ Token.RIGHT_BRACE ∧ p.mCurrentToken ≠ Token.TOK_EOF then
      match ParseCompoundStmt.dispatch ParseExpr fuel node p with
      | .error e => .error e
      | .ok (node1, p1) =>
        ParseCompoundStmt.loop ParseExpr fuel (cStmt.addStatm node1) none p1.advance
    else .ok (cStmt, p)

/-- The routine `Parser::ParseCompoundStmt`. -/
def ParseCompoundStmt (ParseExpr : SubParser) (fuel : Nat) (p : Parser) :
    Run (Option ASTNode) :=
  if p.mCurrentToken ≠ Token.LEFT_BRACE then .ok (none, p)
  else
    match ParseCompoundStmt.loop ParseExpr fuel ComplexStatm none p.advance with
    | .error e => .error e
    | .ok (cStmt, p1) =>
      if p1.mCurrentToken ≠ Token.RIGHT_BRACE then .ok (some cStmt, p1)
      else .ok (some cStmt, p1)

/-- The recovery loop of `ParseProgramDecl` (lines 292-295). -/
def ParseProgramDecl.skip : Nat → Parser → Except Halt Parser
  | 0, _ => .error .FUEL
  | fuel + 1, p =>
    if p.mCurrentToken ≠ Token.VAR ∧ p.mCurrentToken ≠ Token.FUNCTION
        ∧ p.mCurrentToken ≠ Token.TOK_EOF then
      ParseProgramDecl.skip fuel p.advance
    else .ok p

/-- The `switch` of `ParseProgramDecl` (lines 278-288). -/
def ParseProgramDecl.dispatch (ParseFunctionDecl ParseExpr : SubParser)
    (node : Option ASTNode) (p : Parser) : Run (Option ASTNode) :=
  match p.mCurrentToken with
  | .VAR => ParseVarDecl ParseExpr p
  | .FUNCTION => ParseFunctionDecl p
  | _ => .ok (node, p)

/-- The declaration loop of `ParseProgramDecl` (lines 276-296). -/
def ParseProgramDecl.loop (ParseFunctionDecl ParseExpr : SubParser) :
    Nat → ASTNode → Option ASTNode → Parser → Run ASTNode
  | 0, _, _, _ => .error .FUEL
  | fuel + 1, programNode, node, p =>
    if p.mCurrentToken ≠ Token.TOK_EOF then
      match ParseProgramDecl.dispatch ParseFunctionDecl ParseExpr node p with
      | .error e => .error e
      | .ok (node1, p1) =>
        match ParseProgramDecl.skip fuel p1 with
        | .error e => .error e
        | .ok p2 =>
          ParseProgramDecl.loop ParseFunctionDecl ParseExpr fuel
            (programNode.addProgramDecl node1) none p2
    else .ok (programNode, p)

/-- The routine `Parser::ParseProgramDecl`. -/
def ParseProgramDecl (ParseFunctionDecl ParseExpr : SubParser) (fuel : Nat)
    (p : Parser) : Run (Option ASTNode) :=
  match ParseProgramDecl.loop ParseFunctionDecl ParseExpr fuel ProgramDecl (some Decl)
      p.advance with
  | .error e => .error e
  | .ok (programNode, p1) => .ok (some programNode, p1)

/-! ## `ParseExpr`, from the spec -/

/-- Modelled from the spec: the binary operator tokens. -/
def Token.isBinaryOperator : Token → Bool
  | .PLUS | .MINUS | .MUL | .DIV => true
  | _ => false

/-- Modelled from the spec: `TokenToOpcode`, the canonical operator symbol of an
operator token. -/
def TokenToOpcode : Token → Char
  | .PLUS => '+'
  | .MINUS => '-'
  | .MUL => '*'
  | .DIV => '/'
  | _ => '?'

/-- Modelled from the spec: the integer value of the text of a numeric literal. -/
def numValue (s : String) : Int :=
  Int.ofNat (s.data.foldl (fun n c => 10 * n + (c.toNat - 48)) 0)

/-- Modelled from the spec: `Parser::ParseExpr` is called by the file and not
defined in it.  It parses a primary expression (a numeric or string literal, an
identifier, or a call when the identifier is followed by the opening
parenthesis) and then, on a binary operator token, hands over to
`ParseBinaryOpExpr`.  When the current token starts no expression it yields no
node and consumes nothing. -/
def ParseExpr : Nat → SubParser
  | 0, _ => .error .FUEL
  | fuel + 1, p =>
    let primary : Run (Option ASTNode) :=
      match p.mCurrentToken with
      | .NUMBER => .ok (some (NumExp (numValue p.mLexer.GetCurrentStr)), p.advance)
      | .STRING => .ok (some (StrExp p.mLexer.GetCurrentStr), p.advance)
      | .IDENTIFIER =>
        let p1 := p.advance
        if p1.mCurrentToken = Token.LEFT_PAREN then
          ParseCallExpr (ParseExpr fuel) fuel (IdentifierExp p.mLexer.GetCurrentStr) false p1
        else .ok (some (IdentifierExp p.mLexer.GetCurrentStr), p1)
      | _ => .ok (none, p)
    match primary with
    | .error e => .error e
    | .ok (none, p1) => .ok (none, p1)
    | .ok (some lhs, p1) =>
      if p1.mCurrentToken.isBinaryOperator then
        ParseBinaryOpExpr TokenToOpcode (ParseExpr fuel) p1.mCurrentToken (some lhs) p1
      else .ok (some lhs, p1)

/-! ## Token streams used as concrete inputs -/

/-- A token that carries no text and no declared type. -/
def tk (t : Token) : LexToken := ⟨t, "", CommonType.VOID⟩

/-- An identifier token. -/
def ident (s : String) : LexToken := ⟨Token.IDENTIFIER, s, CommonType.VOID⟩

/-- A numeric literal token. -/
def num (s : String) : LexToken := ⟨Token.NUMBER, s, CommonType.VOID⟩

/-- A var-introducing token with its declared type. -/
def var (t : CommonType) : LexToken := ⟨Token.VAR, "", t⟩

/-- The stream of `var x : void;`. -/
def voidVarInput : List LexToken :=
  [var CommonType.VOID, ident "x", tk Token.SEMI_COLON, tk Token.TOK_EOF]

/-- The stream of `var x : int = 5;`. -/
def intVarInput : List LexToken :=
  [var (CommonType.OTHER "int"), ident "x", tk Token.ASSIGN, num "5",
    tk Token.SEMI_COLON, tk Token.TOK_EOF]

/-- The stream of `var x : int;`. -/
def intVarNoInitInput : List LexToken :=
  [var (CommonType.OTHER "int"), ident "x", tk Token.SEMI_COLON, tk Token.TOK_EOF]

/-- The stream of `+ 2 ;`, the current token being the operator. -/
def plusTwoInput : List LexToken :=
  [tk Token.PLUS, num "2", tk Token.SEMI_COLON, tk Token.TOK_EOF]

/-- The stream of `+ ;`: an operator with no right-hand operand. -/
def plusNothingInput : List LexToken :=
  [tk Token.PLUS, tk Token.SEMI_COLON, tk Token.TOK_EOF]

/-- The node `BinOpExp(op, lhs, rhs)` for two present operands. -/
def BinOpExp.node (op : Char) (lhs rhs : ASTNode) : ASTNode :=
  ASTNode.mk NodeType.BINARY_EXP "" [some lhs, some rhs] (Members.BinOpExp op)

/-- The stream of `( 1 , 2 , 3 ) ;`, the current token being the opening
parenthesis that follows the callee of `f(1, 2, 3);`. -/
def callInput : List LexToken :=
  [tk Token.LEFT_PAREN, num "1", tk Token.COMMA, num "2", tk Token.COMMA, num "3",
    tk Token.RIGHT_PAREN, tk Token.SEMI_COLON, tk Token.TOK_EOF]

/-- The stream of `( ) ;`, for the call `f();`. -/
def emptyCallInput : List LexToken :=
  [tk Token.LEFT_PAREN, tk Token.RIGHT_PAREN, tk Token.SEMI_COLON, tk Token.TOK_EOF]

/-- The stream of `( , 1 ) ;`, for the call `f(,1);`. -/
def missingArgInput : List LexToken :=
  [tk Token.LEFT_PAREN, tk Token.COMMA, num "1", tk Token.RIGHT_PAREN,
    tk Token.SEMI_COLON, tk Token.TOK_EOF]

/-- The stream of `( 1 , 2 ; 3 ) ;`: a statement terminator follows the second
argument. -/
def brokenCallInput : List LexToken :=
  [tk Token.LEFT_PAREN, num "1", tk Token.COMMA, num "2", tk Token.SEMI_COLON, num "3",
    tk Token.RIGHT_PAREN, tk Token.SEMI_COLON, tk Token.TOK_EOF]

/-- The stream of `{ var x : int = 1; return x; }`. -/
def blockInput : List LexToken :=
  [tk Token.LEFT_BRACE, var (CommonType.OTHER "int"), ident "x", tk Token.ASSIGN, num "1",
    tk Token.SEMI_COLON, tk Token.RETURN, ident "x", tk Token.SEMI_COLON,
    tk Token.RIGHT_BRACE, tk Token.TOK_EOF]

/-- The stream of `{ var x : int = 1; }`: the block above without its return
statement. -/
def blockNoReturnInput : List LexToken :=
  [tk Token.LEFT_BRACE, var (CommonType.OTHER "int"), ident "x", tk Token.ASSIGN, num "1",
    tk Token.SEMI_COLON, tk Token.RIGHT_BRACE, tk Token.TOK_EOF]

/-- The source text at `p` is a non-empty comma-separated argument list closed
by the right parenthesis: `ParseExpr` yields the nodes `as` one after the other,
every argument but the last is followed by a comma, and the last one is
followed by the closing parenthesis, which is the current token of `q`. -/
inductive ArgList (pe : SubParser) : Parser → List ASTNode → Parser → Prop
  | last {p q : Parser} {a : ASTNode} :
      p.mCurrentToken ≠ Token.RIGHT_PAREN → pe p = .ok (some a, q) →
      q.mCurrentToken = Token.RIGHT_PAREN → ArgList pe p [a] q
  | cons {p q r : Parser} {a : ASTNode} {as : List ASTNode} :
      p.mCurrentToken ≠ Token.RIGHT_PAREN → pe p = .ok (some a, q) →
      q.mCurrentToken = Token.COMMA → ArgList pe q.advance as r →
      ArgList pe p (a :: as) r

/-- The argument loop of `ParseCallExpr`, entered in state `(args, p)`, is at
the head of a pass in state `(args1, p1)` after zero or more passes that each
ended on a comma. -/
inductive Scans (pe : SubParser) : ChildNodes → Parser → ChildNodes → Parser → Prop
  | here (args : ChildNodes) (p : Parser) : Scans pe args p args p
  | pass {args args1 : ChildNodes} {p q p1 : Parser} {arg : Option ASTNode} :
      p.mCurrentToken ≠ Token.RIGHT_PAREN → pe p = .ok (arg, q) →
      q.mCurrentToken = Token.COMMA → Scans pe (args ++ [arg]) q.advance args1 p1 →
      Scans pe args p args1 p1

/-- The constructor `VarParamDecl()`. -/
def VarParamDecl : ASTNode := .mk .VAR_PARAM_DECL "" [] .none

/-- The constructor `FunDecl()`: a node tagged `ERROR` with return type
`"ERROR"`. -/
def FunDecl.default : ASTNode := .mk .ERROR "" [] (.FunDecl "ERROR")

/-- The constructor `FunDecl(funName, type, parm, body)`: the base class is
initialised with `NodeType::FUN_DECL`, `nName` is the function name, and `parm`
then `body` are added as children, without a test. -/
def FunDecl (funName type : String) (parm body : Option ASTNode) : ASTNode :=
  ((ASTNode.mk .FUN_DECL funName [] (.FunDecl type)).addChildNode parm).addChildNode body

/-- The accessor `FunDecl::getFunName`. -/
def ASTNode.getFunName (self : ASTNode) : String := self.getName

/-- The accessor `FunDecl::getFunType`. -/
def ASTNode.getFunType (self : ASTNode) : String :=
  match self.getMembers with
  | .FunDecl returnType => returnType
  | _ => ""

/-- The number of tokens the lexer has not handed out yet. -/
def Parser.remaining (p : Parser) : Nat := p.mLexer.input.length

/-- A stand-in for `ParseFunctionDecl`, which the file calls and does not
define: it pulls one token and answers the node of `FunDecl()`. -/
def failedFunctionDecl : SubParser :=
  fun p => .ok (some FunDecl.default, p.advance)

/-- A child that a `Program` node may hold according to the spec: a present
node tagged `VAR_DECL`, `FUN_DECL` or `ERROR`. -/
def ProgramChildOk (c : Option ASTNode) : Prop :=
  ∃ n : ASTNode, c = some n ∧
    (n.getType = NodeType.VAR_DECL ∨ n.getType = NodeType.FUN_DECL
      ∨ n.getType = NodeType.ERROR)

/-- The source text at `p` is a sequence of expression statements closed by
the right brace: each statement starts on an identifier, `ParseExpr` yields its
node and stops on the statement terminator, and the token after the last
terminator (the current token of `q`) is the closing brace. -/
inductive StmtList (pe : SubParser) : Parser → List ASTNode → Parser → Prop
  | done {p : Parser} : p.mCurrentToken = Token.RIGHT_BRACE → StmtList pe p [] p
  | stmt {p q r : Parser} {a : ASTNode} {as : List ASTNode} :
      p.mCurrentToken = Token.IDENTIFIER → pe p = .ok (some a, q) →
      q.mCurrentToken = Token.SEMI_COLON → StmtList pe q.advance as r →
      StmtList pe p (a :: as) r

/-- The source text at `p` is a non-empty argument list with a trailing comma:
every argument, the last one included, is followed by a comma, and the token
after the last comma (the current token of `q`) is the closing parenthesis. -/
inductive ArgListComma (pe : SubParser) : Parser → List ASTNode → Parser → Prop
  | last {p q : Parser} {a : ASTNode} :
      p.mCurrentToken ≠ Token.RIGHT_PAREN → pe p = .ok (some a, q) →
      q.mCurrentToken = Token.COMMA →
      q.advance.mCurrentToken = Token.RIGHT_PAREN → ArgListComma pe p [a] q.advance
  | cons {p q r : Parser} {a : ASTNode} {as : List ASTNode} :
      p.mCurrentToken ≠ Token.RIGHT_PAREN → pe p = .ok (some a, q) →
      q.mCurrentToken = Token.COMMA → ArgListComma pe q.advance as r →
      ArgListComma pe p (a :: as) r

/-- The source text from `p` to `r` is a run of expression statements, each
one starting on an identifier and ending on its statement terminator;
`ParseExpr` yields the nodes `as` for them, and `r` is the state after the last
terminator has been pulled. -/
inductive StmtRun (pe : SubParser) : Parser → List ASTNode → Parser → Prop
  | none (p : Parser) : StmtRun pe p [] p
  | stmt {p q r : Parser} {a : ASTNode} {as : List ASTNode} :
      p.mCurrentToken = Token.IDENTIFIER → pe p = .ok (some a, q) →
      q.mCurrentToken = Token.SEMI_COLON → StmtRun pe q.advance as r →
      StmtRun pe p (a :: as) r

/-- From `p`, the next closing brace is the current token of `q`, and no end of
input comes before it. -/
inductive NextBrace : Parser → Parser → Prop
  | here {q : Parser} : q.mCurrentToken = Token.RIGHT_BRACE → NextBrace q q
  | skip {p q : Parser} :
      p.mCurrentToken ≠ Token.RIGHT_BRACE → p.mCurrentToken ≠ Token.TOK_EOF →
      NextBrace p.advance q → NextBrace p q

/-- The stream of `{ x ; function g } y ; } ;`: a statement, a function token
with what follows it up to a closing brace, and a statement after that brace. -/
def functionInBlockInput : List LexToken :=
  [tk Token.LEFT_BRACE, ident "x", tk Token.SEMI_COLON, tk Token.FUNCTION, ident "g",
    tk Token.RIGHT_BRACE, ident "y", tk Token.SEMI_COLON, tk Token.RIGHT_BRACE,
    tk Token.SEMI_COLON, tk Token.TOK_EOF]

/-- The stream of `{ function g } var y ; }`: a function token inside a block,
and tokens after the closing brace of that block. -/
def nestedFunctionInput : List LexToken :=
  [tk Token.LEFT_BRACE, tk Token.FUNCTION, ident "g", tk Token.RIGHT_BRACE,
    var (CommonType.OTHER "int"), ident "y", tk Token.SEMI_COLON, tk Token.RIGHT_BRACE,
    tk Token.TOK_EOF]

/-- The stream of `{ ; }`. -/
def emptyStmtInput : List LexToken :=
  [tk Token.LEFT_BRACE, tk Token.SEMI_COLON, tk Token.RIGHT_BRACE, tk Token.TOK_EOF]

/-- The stream of `{ } ;`: an empty block and the token that follows it. -/
def emptyBlockInput : List LexToken :=
  [tk Token.LEFT_BRACE, tk Token.RIGHT_BRACE, tk Token.SEMI_COLON, tk Token.TOK_EOF]

/-- The stream of `{ x ; y ; } ;`: a block of two expression statements. -/
def exprBlockInput : List LexToken :=
  [tk Token.LEFT_BRACE, ident "x", tk Token.SEMI_COLON, ident "y", tk Token.SEMI_COLON,
    tk Token.RIGHT_BRACE, tk Token.SEMI_COLON, tk Token.TOK_EOF]

/-- The stream of `return x ;`. -/
def returnValueInput : List LexToken :=
  [tk Token.RETURN, ident "x", tk Token.SEMI_COLON, tk Token.TOK_EOF]

/-- The stream of `return x }`: the statement terminator is missing. -/
def returnNoTerminatorInput : List LexToken :=
  [tk Token.RETURN, ident "x", tk Token.RIGHT_BRACE, tk Token.TOK_EOF]

/-- The stream of `return ;`. -/
def bareReturnInput : List LexToken :=
  [tk Token.RETURN, tk Token.SEMI_COLON, tk Token.TOK_EOF]

/-- The stream of `return }`: a bare return without its terminator. -/
def bareReturnNoTerminatorInput : List LexToken :=
  [tk Token.RETURN, tk Token.RIGHT_BRACE, tk Token.TOK_EOF]

/-- The stream of `; var x : int ; function f var y : int`, for three
declaration attempts after a stray token. -/
def declsInput : List LexToken :=
  [tk Token.SEMI_COLON, var (CommonType.OTHER "int"), ident "x", tk Token.SEMI_COLON,
    tk Token.FUNCTION, ident "f", var (CommonType.OTHER "int"), ident "y",
    tk Token.TOK_EOF]

/-- The stream of `( 1 , 2 , ) ;`, for the call `f(1, 2,);`. -/
def trailingCommaInput : List LexToken :=
  [tk Token.LEFT_PAREN, num "1", tk Token.COMMA, num "2", tk Token.COMMA,
    tk Token.RIGHT_PAREN, tk Token.SEMI_COLON, tk Token.TOK_EOF]

/-- The stream of `( 1 , 2 ) ;`, for the call `f(1, 2);`. -/
def twoArgsInput : List LexToken :=
  [tk Token.LEFT_PAREN, num "1", tk Token.COMMA, num "2", tk Token.RIGHT_PAREN,
    tk Token.SEMI_COLON, tk Token.TOK_EOF]

/-! ## Basic facts -/

theorem ParseVarDecl_void (pe : SubParser) (p : Parser)
    (h : p.mLexer.GetCurrentType = CommonType.VOID) :
    ParseVarDecl pe p = .ok (some VarDecl.default, p) := by
  unfold ParseVarDecl
  simp only [h]

/-- Whatever `ParseVarDecl` returns, it is the placeholder built on its first
line: after the identifier test the current token is the identifier, so neither
the assignment branch nor the semicolon branch is taken. -/
theorem ParseVarDecl_ok (pe : SubParser) (p q : Parser) (r : Option ASTNode)
    (h : ParseVarDecl pe p = .ok (r, q)) : r = some VarDecl.default := by
  unfold ParseVarDecl at h
  cases hty : p.mLexer.GetCurrentType with
  | VOID =>
    simp only [hty] at h
    injection h with h
    injection h with h1 h2
    exact h1.symm
  | OTHER name =>
    simp only [hty] at h
    by_cases hid : p.advance.mCurrentToken = Token.IDENTIFIER
    · have h1 : ¬ (Token.IDENTIFIER = Token.ASSIGN) := by decide
      have h2 : ¬ (Token.IDENTIFIER = Token.SEMI_COLON) := by decide
      simp [hid, ParseVarDecl.finish] at h
      exact h.1.symm
    · simp [hid] at h
      exact h.1.symm

/-- One pass of the argument loop that ends on a comma. -/
theorem ParseCallExpr.loop_comma (pe : SubParser) (fuel : Nat) (args : ChildNodes)
    (p q : Parser) (arg : Option ASTNode)
    (hp : p.mCurrentToken ≠ Token.RIGHT_PAREN) (he : pe p = .ok (arg, q))
    (hq : q.mCurrentToken = Token.COMMA) :
    ParseCallExpr.loop pe (fuel + 1) args p
      = ParseCallExpr.loop pe fuel (args ++ [arg]) q.advance := by
  have h1 : ¬ (Token.COMMA = Token.RIGHT_PAREN) := by decide
  simp [ParseCallExpr.loop, hp, he, hq]

/-- The pass of the argument loop that ends on the closing parenthesis. -/
theorem ParseCallExpr.loop_close (pe : SubParser) (fuel : Nat) (args : ChildNodes)
    (p q : Parser) (arg : Option ASTNode)
    (hp : p.mCurrentToken ≠ Token.RIGHT_PAREN) (he : pe p = .ok (arg, q))
    (hq : q.mCurrentToken = Token.RIGHT_PAREN) :
    ParseCallExpr.loop pe (fuel + 1) args p = .ok (some (args ++ [arg]), q) := by
  simp [ParseCallExpr.loop, hp, he, hq]

/-- A pass of the argument loop that ends on neither a comma nor the closing
parenthesis leaves the routine through one of its two `return` statements. -/
theorem ParseCallExpr.loop_fail (pe : SubParser) (fuel : Nat) (args : ChildNodes)
    (p q : Parser) (arg : Option ASTNode)
    (hp : p.mCurrentToken ≠ Token.RIGHT_PAREN) (he : pe p = .ok (arg, q))
    (h1 : q.mCurrentToken ≠ Token.RIGHT_PAREN) (h2 : q.mCurrentToken ≠ Token.COMMA) :
    ParseCallExpr.loop pe (fuel + 1) args p = .ok (none, q) := by
  simp [ParseCallExpr.loop, hp, he, h1, h2]

theorem ParseCallExpr.loop_ArgList (pe : SubParser) {p q : Parser} {as : List ASTNode}
    (h : ArgList pe p as q) :
    ∀ (fuel : Nat) (args : ChildNodes), as.length ≤ fuel →
      ParseCallExpr.loop pe fuel args p = .ok (some (args ++ as.map some), q) := by
  induction h with
  | last hp he hq =>
    intro fuel args hf
    obtain ⟨f, rfl⟩ : ∃ f, fuel = f + 1 := ⟨fuel - 1, by simp at hf; omega⟩
    rw [ParseCallExpr.loop_close pe f args _ _ _ hp he hq]
    rfl
  | cons hp he hq _ ih =>
    intro fuel args hf
    obtain ⟨f, rfl⟩ : ∃ f, fuel = f + 1 := ⟨fuel - 1, by simp at hf; omega⟩
    rw [ParseCallExpr.loop_comma pe f args _ _ _ hp he hq, ih f _ (by simp at hf; omega)]
    simp

theorem ParseCallExpr.loop_Scans (pe : SubParser) {args args1 : ChildNodes}
    {p p1 : Parser} (h : Scans pe args p args1 p1) (arg : Option ASTNode) (q : Parser)
    (hp : p1.mCurrentToken ≠ Token.RIGHT_PAREN) (he : pe p1 = .ok (arg, q))
    (h1 : q.mCurrentToken ≠ Token.RIGHT_PAREN) (h2 : q.mCurrentToken ≠ Token.COMMA) :
    ∃ n, ∀ fuel, n ≤ fuel → ParseCallExpr.loop pe fuel args p = .ok (none, q) := by
  induction h with
  | here args p =>
    refine ⟨1, fun fuel hf => ?_⟩
    obtain ⟨f, rfl⟩ : ∃ f, fuel = f + 1 := ⟨fuel - 1, by omega⟩
    exact ParseCallExpr.loop_fail pe f args p q arg hp he h1 h2
  | pass hp0 he0 hq0 _ ih =>
    obtain ⟨n, hn⟩ := ih hp he
    refine ⟨n + 1, fun fuel hf => ?_⟩
    obtain ⟨f, rfl⟩ : ∃ f, fuel = f + 1 := ⟨fuel - 1, by omega⟩
    rw [ParseCallExpr.loop_comma pe f _ _ _ _ hp0 he0 hq0]
    exact hn f (by omega)

/-- On the stream of `var x : void;` the declaration loop of `ParseProgramDecl`
runs out of any fuel: every pass leaves the parser on the var token. -/
theorem ParseProgramDecl.loop_void (pf pe : SubParser) :
    ∀ (n : Nat) (prog : ASTNode) (node : Option ASTNode),
      ParseProgramDecl.loop pf pe n prog node (Parser.start voidVarInput)
        = .error Halt.FUEL := by
  intro n
  induction n with
  | zero => intro prog node; rfl
  | succ m ih =>
    intro prog node
    cases m with
    | zero => rfl
    | succ k =>
      have hstep : ParseProgramDecl.loop pf pe (k + 1 + 1) prog node
          (Parser.start voidVarInput)
          = ParseProgramDecl.loop pf pe (k + 1)
              (prog.addProgramDecl (some VarDecl.default)) none
              (Parser.start voidVarInput) := rfl
      rw [hstep]
      exact ih _ _

/-! ## The claims -/

/-- C1 (fails on the code): on the stream of `var x : void;` the routine
`ParseProgramDecl` never returns.  `ParseVarDecl` leaves through its void branch
without consuming the var token, the recovery loop stops at once on that same
token, and the declaration loop starts over in the same parser state: whatever
fuel is given, the run ends out of fuel. -/
theorem C1_ParseProgramDecl_void_var_diverges (pf pe : SubParser) (fuel : Nat) :
    ParseProgramDecl pf pe fuel (Parser.init voidVarInput) = .error Halt.FUEL := by
  have key : ∀ (n : Nat) (prog : ASTNode) (node : Option ASTNode),
      ParseProgramDecl.loop pf pe n prog node (Parser.init voidVarInput).advance
        = .error Halt.FUEL := by
    intro n
    induction n with
    | zero => intro prog node; rfl
    | succ m ih =>
      intro prog node
      cases m with
      | zero => rfl
      | succ k =>
        have hstep : ParseProgramDecl.loop pf pe (k + 1 + 1) prog node
            (Parser.init voidVarInput).advance
            = ParseProgramDecl.loop pf pe (k + 1)
                (prog.addProgramDecl (some VarDecl.default)) none
                (Parser.init voidVarInput).advance := rfl
        rw [hstep]
        exact ih _ _
  unfold ParseProgramDecl
  rw [key]

/-- C2 (fails on the code): on the stream of `var x : int = 5;`, whatever
`ParseExpr` does, `ParseVarDecl` returns the placeholder built on its first
line, with no name, no type and no child, and stops on the identifier: the
token after the identifier is never pulled, so the assignment and the
terminator are never seen.  The same happens on `var x : int;`. -/
theorem C2_ParseVarDecl_int_returns_placeholder (pe : SubParser) :
    ParseVarDecl pe (Parser.start intVarInput)
      = .ok (some VarDecl.default,
          Parser.start [ident "x", tk Token.ASSIGN, num "5", tk Token.SEMI_COLON,
            tk Token.TOK_EOF])
    ∧ ParseVarDecl pe (Parser.start intVarNoInitInput)
      = .ok (some VarDecl.default,
          Parser.start [ident "x", tk Token.SEMI_COLON, tk Token.TOK_EOF])
    ∧ VarDecl.default.getVarName = ""
    ∧ VarDecl.default.getVarType = ""
    ∧ VarDecl.default.getChildNodes = [] :=
  ⟨rfl, rfl, rfl, rfl, rfl⟩

/-- C3 (fails on the code): with the declared type void `ParseVarDecl` does
what the claim says, in every such state: it pulls no token and returns the
placeholder built on its first line, a present node tagged `ERROR`, not
`VAR_DECL`.  But no Program tree is built for `var x : void;`: since the var
token is not pulled, `ParseProgramDecl` starts the same pass again and again
(the defect of C1), each pass appending one more placeholder to a tree that is
never handed back, whatever the fuel. -/
theorem C3_void_var_no_program_tree (pf pe : SubParser) :
    (∀ (str : String) (input : List LexToken) (tok : Token),
      ParseVarDecl pe ⟨⟨str, CommonType.VOID, input⟩, tok⟩
        = .ok (some VarDecl.default, ⟨⟨str, CommonType.VOID, input⟩, tok⟩))
    ∧ VarDecl.default.getType = NodeType.ERROR
    ∧ VarDecl.default.getType ≠ NodeType.VAR_DECL
    ∧ (∀ (fuel : Nat) (prog : ASTNode) (node : Option ASTNode),
        ParseProgramDecl.loop pf pe (fuel + 2) prog node (Parser.start voidVarInput)
          = ParseProgramDecl.loop pf pe (fuel + 1)
              (prog.addProgramDecl (some VarDecl.default)) none
              (Parser.start voidVarInput))
    ∧ (∀ (fuel : Nat) (r : Option ASTNode) (q : Parser),
        ParseProgramDecl pf pe fuel (Parser.init voidVarInput) ≠ .ok (r, q)) := by
  refine ⟨fun _ _ _ => rfl, rfl, by decide, fun _ _ _ => rfl, ?_⟩
  intro fuel r q h
  unfold ParseProgramDecl at h
  rw [show (Parser.init voidVarInput).advance = Parser.start voidVarInput from rfl,
    ParseProgramDecl.loop_void pf pe fuel ProgramDecl (some Decl)] at h
  simp at h

/-- C4: for a present left operand, `ParseBinaryOpExpr` returns an absence when
`ParseExpr` yields no node for the right-hand side, and otherwise a node of kind
`BINARY_EXP` whose operator is `TokenToOpcode(op)` and whose children are the
left operand then the right operand, both present. -/
theorem C4_ParseBinaryOpExpr_result (tto : Token → Char) (pe : SubParser)
    (op : Token) (lhs : ASTNode) (p : Parser) :
    (∀ q, pe p.advance = .ok (none, q) →
      ParseBinaryOpExpr tto pe op (some lhs) p = .ok (none, q))
    ∧ (∀ rhs q, pe p.advance = .ok (some rhs, q) →
      ∃ n : ASTNode, ParseBinaryOpExpr tto pe op (some lhs) p = .ok (some n, q)
        ∧ n.getType = NodeType.BINARY_EXP
        ∧ n.getBinOp = some (tto op)
        ∧ n.getChildNodes = [some lhs, some rhs]) := by
  constructor
  · intro q h
    simp [ParseBinaryOpExpr, h]
  · intro rhs q h
    refine ⟨BinOpExp.node (tto op) lhs rhs, ?_, rfl, rfl, rfl⟩
    simp [ParseBinaryOpExpr, h, BinOpExp, BinOpExp.node, ASTNode.addChildNode]

/-- C4 at the streams `+ ;` and `+ 2 ;` with the left operand `1`. -/
theorem C4_ParseBinaryOpExpr_result_witness :
    ParseBinaryOpExpr TokenToOpcode (ParseExpr 1) Token.PLUS (some (NumExp 1))
        (Parser.start plusNothingInput)
      = .ok (none, Parser.start [tk Token.SEMI_COLON, tk Token.TOK_EOF])
    ∧ ∃ n : ASTNode,
      ParseBinaryOpExpr TokenToOpcode (ParseExpr 1) Token.PLUS (some (NumExp 1))
          (Parser.start plusTwoInput)
        = .ok (some n, Parser.start [tk Token.SEMI_COLON, tk Token.TOK_EOF])
      ∧ n.getType = NodeType.BINARY_EXP
      ∧ n.getBinOp = some (TokenToOpcode Token.PLUS)
      ∧ n.getChildNodes = [some (NumExp 1), some (NumExp 2)] :=
  ⟨(C4_ParseBinaryOpExpr_result TokenToOpcode (ParseExpr 1) Token.PLUS (NumExp 1)
      (Parser.start plusNothingInput)).1 _ rfl,
   (C4_ParseBinaryOpExpr_result TokenToOpcode (ParseExpr 1) Token.PLUS (NumExp 1)
      (Parser.start plusTwoInput)).2 (NumExp 2) _ rfl⟩

/-- C5 (as stated, fails): with an absent left operand and the stream `+ 2 ;`,
`ParseExpr` yields the right-hand operand and the `BinOpExp` constructor reaches
`abort()`: `ParseBinaryOpExpr` does not return to its caller. -/
theorem C5_counterexample :
    ParseBinaryOpExpr TokenToOpcode (ParseExpr 1) Token.PLUS none
      (Parser.start plusTwoInput) = .error Halt.ABORT :=
  rfl

/-- C5 (amended): when `ParseExpr` returns for the right-hand side,
`ParseBinaryOpExpr` with a present left operand returns to its caller, with an
absence or with a node of kind `BINARY_EXP`, and `abort()` is not reached; with
an absent left operand it returns an absence when the right-hand side is absent
too, and reaches `abort()` when the right-hand side is present. -/
theorem C5_ParseBinaryOpExpr_abort_iff (tto : Token → Char) (pe : SubParser)
    (op : Token) (p q : Parser) (rhs : Option ASTNode)
    (h : pe p.advance = .ok (rhs, q)) :
    (∀ lhs : ASTNode,
      ParseBinaryOpExpr tto pe op (some lhs) p = .ok (none, q)
      ∨ ∃ n : ASTNode, ParseBinaryOpExpr tto pe op (some lhs) p = .ok (some n, q)
          ∧ n.getType = NodeType.BINARY_EXP)
    ∧ (rhs = none → ParseBinaryOpExpr tto pe op none p = .ok (none, q))
    ∧ (rhs ≠ none → ParseBinaryOpExpr tto pe op none p = .error Halt.ABORT) := by
  cases rhs with
  | none =>
    refine ⟨fun lhs => Or.inl ?_, fun _ => ?_, fun hne => absurd rfl hne⟩
    · simp [ParseBinaryOpExpr, h]
    · simp [ParseBinaryOpExpr, h]
  | some r =>
    refine ⟨fun lhs => Or.inr ⟨BinOpExp.node (tto op) lhs r, ?_, rfl⟩,
      fun hn => Option.noConfusion hn, fun _ => ?_⟩
    · simp [ParseBinaryOpExpr, h, BinOpExp, BinOpExp.node, ASTNode.addChildNode]
    · simp [ParseBinaryOpExpr, h, BinOpExp]

/-- The amended C5 at the stream `+ 2 ;`. -/
theorem C5_ParseBinaryOpExpr_abort_iff_witness :
    (∀ lhs : ASTNode,
      ParseBinaryOpExpr TokenToOpcode (ParseExpr 1) Token.PLUS (some lhs)
          (Parser.start plusTwoInput)
        = .ok (none, Parser.start [tk Token.SEMI_COLON, tk Token.TOK_EOF])
      ∨ ∃ n : ASTNode,
          ParseBinaryOpExpr TokenToOpcode (ParseExpr 1) Token.PLUS (some lhs)
              (Parser.start plusTwoInput)
            = .ok (some n, Parser.start [tk Token.SEMI_COLON, tk Token.TOK_EOF])
          ∧ n.getType = NodeType.BINARY_EXP)
    ∧ (some (NumExp 2) = none →
        ParseBinaryOpExpr TokenToOpcode (ParseExpr 1) Token.PLUS none
            (Parser.start plusTwoInput)
          = .ok (none, Parser.start [tk Token.SEMI_COLON, tk Token.TOK_EOF]))
    ∧ (some (NumExp 2) ≠ none →
        ParseBinaryOpExpr TokenToOpcode (ParseExpr 1) Token.PLUS none
            (Parser.start plusTwoInput) = .error Halt.ABORT) :=
  C5_ParseBinaryOpExpr_abort_iff TokenToOpcode (ParseExpr 1) Token.PLUS
    (Parser.start plusTwoInput) (Parser.start [tk Token.SEMI_COLON, tk Token.TOK_EOF])
    (some (NumExp 2)) rfl

/-- C6: for a callee named `f` and the source `f(a1, ..., an)`,
`ParseCallExpr` with the spawn flag false returns a node of kind `CALL_EXP`
whose name (`getCalledFunName`, that is `getName`) is `f` and whose argument
list (`getArgs`, that is `getChildNodes`) is exactly the nodes of `a1 .. an` in
source order, all present, and it leaves the token that follows the closing
parenthesis as current; for `f()` the argument list is empty and the call is
not a failure.  One unit of fuel per argument is enough. -/
theorem C6_ParseCallExpr_arguments (pe : SubParser) (fn : ASTNode) (p : Parser) :
    (p.advance.mCurrentToken = Token.RIGHT_PAREN → ∀ fuel, 0 < fuel →
      ∃ c : ASTNode,
        ParseCallExpr pe fuel fn false p = .ok (some c, p.advance.advance)
        ∧ c.getType = NodeType.CALL_EXP
        ∧ c.getName = fn.getName
        ∧ c.getChildNodes = [])
    ∧ (∀ (as : List ASTNode) (q : Parser), ArgList pe p.advance as q →
      ∀ fuel, as.length ≤ fuel →
        ∃ c : ASTNode,
          ParseCallExpr pe fuel fn false p = .ok (some c, q.advance)
          ∧ c.getType = NodeType.CALL_EXP
          ∧ c.getName = fn.getName
          ∧ c.getChildNodes = as.map some
          ∧ c.getChildNodes.length = as.length) := by
  constructor
  · intro h fuel hf
    obtain ⟨f, rfl⟩ : ∃ f, fuel = f + 1 := ⟨fuel - 1, by omega⟩
    refine ⟨CallExp fn.getName [], ?_, rfl, rfl, rfl⟩
    simp [ParseCallExpr, ParseCallExpr.loop, h]
  · intro as q h fuel hf
    refine ⟨CallExp fn.getName (as.map some), ?_, rfl, rfl, ?_, ?_⟩
    · simp [ParseCallExpr, ParseCallExpr.loop_ArgList pe h fuel [] hf]
    · simp [CallExp, ASTNode.getChildNodes]
    · simp [CallExp, ASTNode.getChildNodes]

/-- C6 at the streams of `f();` and `f(1, 2, 3);`. -/
theorem C6_ParseCallExpr_arguments_witness :
    (∃ c : ASTNode,
      ParseCallExpr (ParseExpr 1) 1 (IdentifierExp "f") false (Parser.start emptyCallInput)
        = .ok (some c, Parser.start [tk Token.SEMI_COLON, tk Token.TOK_EOF])
      ∧ c.getType = NodeType.CALL_EXP
      ∧ c.getName = "f"
      ∧ c.getChildNodes = [])
    ∧ (∃ c : ASTNode,
      ParseCallExpr (ParseExpr 1) 3 (IdentifierExp "f") false (Parser.start callInput)
        = .ok (some c, Parser.start [tk Token.SEMI_COLON, tk Token.TOK_EOF])
      ∧ c.getType = NodeType.CALL_EXP
      ∧ c.getName = "f"
      ∧ c.getChildNodes = [some (NumExp 1), some (NumExp 2), some (NumExp 3)]
      ∧ c.getChildNodes.length = 3) :=
  ⟨(C6_ParseCallExpr_arguments (ParseExpr 1) (IdentifierExp "f")
      (Parser.start emptyCallInput)).1 rfl 1 (by decide),
   (C6_ParseCallExpr_arguments (ParseExpr 1) (IdentifierExp "f")
      (Parser.start callInput)).2 [NumExp 1, NumExp 2, NumExp 3]
      (Parser.start [tk Token.RIGHT_PAREN, tk Token.SEMI_COLON, tk Token.TOK_EOF])
      (ArgList.cons
        (q := Parser.start [tk Token.COMMA, num "2", tk Token.COMMA, num "3",
          tk Token.RIGHT_PAREN, tk Token.SEMI_COLON, tk Token.TOK_EOF])
        (by decide) rfl rfl
        (ArgList.cons
          (q := Parser.start [tk Token.COMMA, num "3", tk Token.RIGHT_PAREN,
            tk Token.SEMI_COLON, tk Token.TOK_EOF])
          (by decide) rfl rfl
          (ArgList.last (by decide) rfl rfl)))
      3 (by decide)⟩

/-- C7: while `ParseCallExpr` scans arguments, a pass in which the token that
follows the argument is neither a comma nor the closing parenthesis (a statement
terminator, the end of input or anything else) makes the whole call an absence,
with or without the spawn flag: nothing of the arguments collected so far is
returned.  The call returns as soon as the fuel covers the passes made. -/
theorem C7_ParseCallExpr_unexpected_token (pe : SubParser) (fn : ASTNode)
    (isSpawnedExpr : Bool) (p p1 q : Parser) (args1 : ChildNodes) (arg : Option ASTNode)
    (hs : Scans pe [] p.advance args1 p1)
    (hp : p1.mCurrentToken ≠ Token.RIGHT_PAREN) (he : pe p1 = .ok (arg, q))
    (h1 : q.mCurrentToken ≠ Token.RIGHT_PAREN) (h2 : q.mCurrentToken ≠ Token.COMMA) :
    ∃ n, ∀ fuel, n ≤ fuel →
      ParseCallExpr pe fuel fn isSpawnedExpr p = .ok (none, q) := by
  obtain ⟨n, hn⟩ := ParseCallExpr.loop_Scans pe hs arg q hp he h1 h2
  refine ⟨n, fun fuel hf => ?_⟩
  simp [ParseCallExpr, hn fuel hf]

/-- C7 at the stream of `f(1, 2; 3);`, in the second pass of the loop. -/
theorem C7_ParseCallExpr_unexpected_token_witness :
    ∃ n, ∀ fuel, n ≤ fuel →
      ParseCallExpr (ParseExpr 1) fuel (IdentifierExp "f") true (Parser.start brokenCallInput)
        = .ok (none, Parser.start [tk Token.SEMI_COLON, num "3", tk Token.RIGHT_PAREN,
            tk Token.SEMI_COLON, tk Token.TOK_EOF]) :=
  C7_ParseCallExpr_unexpected_token (ParseExpr 1) (IdentifierExp "f") true
    (Parser.start brokenCallInput)
    (Parser.start [num "2", tk Token.SEMI_COLON, num "3", tk Token.RIGHT_PAREN,
      tk Token.SEMI_COLON, tk Token.TOK_EOF])
    (Parser.start [tk Token.SEMI_COLON, num "3", tk Token.RIGHT_PAREN,
      tk Token.SEMI_COLON, tk Token.TOK_EOF])
    [some (NumExp 1)] (some (NumExp 2))
    (Scans.pass
      (q := Parser.start [tk Token.COMMA, num "2", tk Token.SEMI_COLON, num "3",
        tk Token.RIGHT_PAREN, tk Token.SEMI_COLON, tk Token.TOK_EOF])
      (by decide) rfl rfl (Scans.here _ _))
    (by decide) rfl (by decide) (by decide)

/-- C8 (fails on the code): on the stream of `f(,1);` the routine
`ParseCallExpr` returns a `CallExp` whose first argument is a null child.
`ParseExpr` yields no node on the comma, the null pointer is pushed onto `args`
without a test, and the comma lets the loop go on. -/
theorem C8_ParseCallExpr_null_argument :
    ParseCallExpr (ParseExpr 1) 2 (IdentifierExp "f") false (Parser.start missingArgInput)
      = .ok (some (CallExp "f" [none, some (NumExp 1)]),
          Parser.start [tk Token.SEMI_COLON, tk Token.TOK_EOF])
    ∧ (CallExp "f" [none, some (NumExp 1)]).getChildNodes = [none, some (NumExp 1)]
    ∧ (CallExp "f" [none, some (NumExp 1)]).getType = NodeType.CALL_EXP :=
  ⟨rfl, rfl, rfl⟩

/-- C9: when `ParseCallExpr` with the spawn flag false returns the `CallExp`
`c`, the same run with the spawn flag true returns a spawn node, whose kind is
not `CALL_EXP`, whose only child is `c` itself (a `CallExp` with the name of the
callee), and it leaves the parser in the same state; when the plain call
returns an absence or does not return, so does the spawned call. -/
theorem C9_ParseCallExpr_spawn (pe : SubParser) (fuel : Nat) (fn : ASTNode) (p : Parser) :
    (∀ (c : ASTNode) (q : Parser),
      ParseCallExpr pe fuel fn false p = .ok (some c, q) →
        ParseCallExpr pe fuel fn true p = .ok (some (SpawnExpr (some c)), q)
        ∧ (SpawnExpr (some c)).getType ≠ NodeType.CALL_EXP
        ∧ (SpawnExpr (some c)).getChildNodes = [some c]
        ∧ c.getType = NodeType.CALL_EXP
        ∧ c.getName = fn.getName)
    ∧ (∀ q : Parser, ParseCallExpr pe fuel fn false p = .ok (none, q) →
        ParseCallExpr pe fuel fn true p = .ok (none, q))
    ∧ (∀ e : Halt, ParseCallExpr pe fuel fn false p = .error e →
        ParseCallExpr pe fuel fn true p = .error e) := by
  unfold ParseCallExpr
  cases hl : ParseCallExpr.loop pe fuel [] p.advance with
  | error e0 =>
    refine ⟨fun c q h => ?_, fun q h => ?_, fun e h => ?_⟩
    · simp at h
    · simp at h
    · simpa using h
  | ok r =>
    obtain ⟨args, p1⟩ := r
    cases args with
    | none =>
      refine ⟨fun c q h => ?_, fun q h => ?_, fun e h => ?_⟩
      · simp at h
      · simpa using h
      · simp at h
    | some a =>
      refine ⟨fun c q h => ?_, fun q h => ?_, fun e h => ?_⟩
      · simp at h
        obtain ⟨hc, hq⟩ := h
        subst hc
        subst hq
        refine ⟨by simp, fun hk => NodeType.noConfusion hk, rfl, rfl, rfl⟩
      · simp at h
      · simp at h

/-- C9 at the streams of `f(1, 2, 3);` and `f(1, 2; 3);`. -/
theorem C9_ParseCallExpr_spawn_witness :
    ParseCallExpr (ParseExpr 1) 3 (IdentifierExp "f") true (Parser.start callInput)
      = .ok (some (SpawnExpr (some
            (CallExp "f" [some (NumExp 1), some (NumExp 2), some (NumExp 3)]))),
          Parser.start [tk Token.SEMI_COLON, tk Token.TOK_EOF])
    ∧ ParseCallExpr (ParseExpr 1) 3 (IdentifierExp "f") true (Parser.start brokenCallInput)
      = .ok (none, Parser.start [tk Token.SEMI_COLON, num "3", tk Token.RIGHT_PAREN,
          tk Token.SEMI_COLON, tk Token.TOK_EOF]) :=
  ⟨((C9_ParseCallExpr_spawn (ParseExpr 1) 3 (IdentifierExp "f")
      (Parser.start callInput)).1 _ _ rfl).1,
   (C9_ParseCallExpr_spawn (ParseExpr 1) 3 (IdentifierExp "f")
      (Parser.start brokenCallInput)).2.1 _ rfl⟩

/-- C10 (fails on the code): on the stream of `{ var x : int = 1; return x; }`
the routine `ParseCompoundStmt` returns no `CompoundStmt`.  `ParseReturnStmt`
has a `return` only on the path where the terminator is missing, so with the
terminator present the run reaches the end of that function without a value.
Before that, the block without the return statement already shows four
children instead of one: the placeholder of `ParseVarDecl`, then one null child
for each of the tokens `=`, `1` and `;`. -/
theorem C10_ParseCompoundStmt_block (k fuel : Nat) :
    ParseCompoundStmt (ParseExpr (k + 1)) (fuel + 5) (Parser.start blockInput)
      = .error Halt.NO_RETURN
    ∧ ParseCompoundStmt (ParseExpr (k + 1)) (fuel + 5) (Parser.start blockNoReturnInput)
      = .ok (some (ASTNode.mk NodeType.COMPEX_STATM ""
            [some VarDecl.default, none, none, none] Members.none),
          Parser.start [tk Token.RIGHT_BRACE, tk Token.TOK_EOF]) :=
  ⟨rfl, rfl⟩

/-- C11 (as stated, fails): on the stream of `{ function g } var y ; }` the
block does not end at the first closing brace.  The inner loop stops on that
brace, the pass ends like every pass with a pull, which steps over it, and the
tokens `var y ;` that follow are read and give children of the same block,
which ends at the second brace with only the end of input left unread. -/
theorem C11_counterexample :
    ParseCompoundStmt (ParseExpr 1) 4 (Parser.start nestedFunctionInput)
      = .ok (some (ASTNode.mk NodeType.COMPEX_STATM ""
            [none, some VarDecl.default, none] Members.none),
          Parser.start [tk Token.RIGHT_BRACE, tk Token.TOK_EOF])
    ∧ (Parser.start [tk Token.RIGHT_BRACE, tk Token.TOK_EOF]).mLexer.input
        = [tk Token.TOK_EOF]
    ∧ (ASTNode.mk NodeType.COMPEX_STATM ""
          [none, some VarDecl.default, none] Members.none).getChildNodes.length = 3 :=
  ⟨rfl, rfl, rfl⟩

/-- C12 (fails on the code): on the stream of `{ ; }` the statement list of the
returned `CompoundStmt` is one null entry.  The semicolon falls in the default
case of the dispatch, `node` is still null, and `AddStatement` appends it
without a test. -/
theorem C12_ParseCompoundStmt_null_entry (pe : SubParser) (fuel : Nat) :
    ParseCompoundStmt pe (fuel + 2) (Parser.start emptyStmtInput)
      = .ok (some (ASTNode.mk NodeType.COMPEX_STATM "" [none] Members.none),
          Parser.start [tk Token.RIGHT_BRACE, tk Token.TOK_EOF])
    ∧ (ASTNode.mk NodeType.COMPEX_STATM "" [none] Members.none).getChildNodes = [none] :=
  ⟨rfl, rfl⟩

/-- C14: when the current token is not the opening brace, `ParseCompoundStmt`
returns the null pointer, neither an `ERROR` node nor an empty block, and the
parser state is the one it was called in: no token is pulled. -/
theorem C14_ParseCompoundStmt_no_brace (pe : SubParser) (fuel : Nat) (p : Parser)
    (h : p.mCurrentToken ≠ Token.LEFT_BRACE) :
    ParseCompoundStmt pe fuel p = .ok (none, p) := by
  simp [ParseCompoundStmt, h]

/-- C14 at the stream of `return x ;`, whose first token is not a brace. -/
theorem C14_ParseCompoundStmt_no_brace_witness :
    (Parser.start returnValueInput).mCurrentToken ≠ Token.LEFT_BRACE
    ∧ ParseCompoundStmt (ParseExpr 1) 0 (Parser.start returnValueInput)
      = .ok (none, Parser.start returnValueInput) :=
  ⟨by decide, C14_ParseCompoundStmt_no_brace (ParseExpr 1) 0
    (Parser.start returnValueInput) (by decide)⟩

/-- C15 (fails on the code): the test of the terminator is the wrong way
round.  On `return x }`, where the terminator is missing, `ParseReturnStmt`
returns the `ReturnStmt` holding `x` as if nothing were wrong; on `return x ;`,
where the terminator is present, control reaches the end of the function
without a `return`, so no node is handed back. -/
theorem C15_ParseReturnStmt_terminator (k : Nat) :
    ParseReturnStmt (ParseExpr (k + 1)) (Parser.start returnNoTerminatorInput)
      = .ok (some (ASTNode.mk NodeType.RETURN_STATM "" [some (IdentifierExp "x")]
            Members.none),
          Parser.start [tk Token.RIGHT_BRACE, tk Token.TOK_EOF])
    ∧ ParseReturnStmt (ParseExpr (k + 1)) (Parser.start returnValueInput)
      = .error Halt.NO_RETURN :=
  ⟨rfl, rfl⟩

/-- C16 (fails on the code): on the stream of `return ;` the routine
`ParseReturnStmt` hands back no `ReturnStmt`: `ParseExpr` yields no node, the
current token is the terminator, and the only `return` of the function is
guarded by the terminator being absent.  The `ReturnStmt` with zero children
comes back only when the terminator is missing, as on `return }`.  The part of
the claim on `addReturnVal` holds: an absent value gives `false` and leaves the
node as it is. -/
theorem C16_ParseReturnStmt_bare_return (k : Nat) :
    ParseReturnStmt (ParseExpr (k + 1)) (Parser.start bareReturnInput)
      = .error Halt.NO_RETURN
    ∧ ParseReturnStmt (ParseExpr (k + 1)) (Parser.start bareReturnNoTerminatorInput)
      = .ok (some ReturnStatm, Parser.start [tk Token.RIGHT_BRACE, tk Token.TOK_EOF])
    ∧ ReturnStatm.getChildNodes = []
    ∧ ∀ r : ASTNode, r.addReturnVal none = (false, r) :=
  ⟨rfl, rfl, rfl, fun _ => rfl⟩

/-- C18 (fails on the code): the constructor of `FunDecl` adds its two
arguments as children without a test.  With a present parameter list and the
null body that `ParseCompoundStmt` returns for a missing opening brace, it
builds a node of kind `FUN_DECL` whose second child is null.  With both
arguments present the node is as the claim says. -/
theorem C18_FunDecl_null_body (funName type : String) (parm body : ASTNode) :
    (FunDecl funName type (some parm) none).getType = NodeType.FUN_DECL
    ∧ (FunDecl funName type (some parm) none).getChildNodes = [some parm, none]
    ∧ (FunDecl funName type none (some body)).getChildNodes = [none, some body]
    ∧ ParseCompoundStmt (ParseExpr 1) 1 (Parser.start returnValueInput)
        = .ok (none, Parser.start returnValueInput)
    ∧ (FunDecl funName type (some parm) (some body)).getType = NodeType.FUN_DECL
    ∧ (FunDecl funName type (some parm) (some body)).getFunName = funName
    ∧ (FunDecl funName type (some parm) (some body)).getFunType = type
    ∧ (FunDecl funName type (some parm) (some body)).getChildNodes
        = [some parm, some body] :=
  ⟨rfl, rfl, rfl, rfl, rfl, rfl, rfl, rfl⟩

/-! ## Token consumption -/

/-- What `ParseVarDecl` computes: the placeholder, in the state it was called in
when the declared type is void, and one token further otherwise. -/
theorem ParseVarDecl_eq (pe : SubParser) (p : Parser) :
    ParseVarDecl pe p
      = .ok (some VarDecl.default,
          match p.mLexer.GetCurrentType with
          | .VOID => p
          | .OTHER _ => p.advance) := by
  unfold ParseVarDecl
  cases hty : p.mLexer.GetCurrentType with
  | VOID => rfl
  | OTHER name =>
    by_cases hid : p.advance.mCurrentToken = Token.IDENTIFIER
    · simp [hid, ParseVarDecl.finish]
    · simp [hid]

theorem Parser.advance_remaining_le (p : Parser) : p.advance.remaining ≤ p.remaining := by
  unfold Parser.advance Parser.remaining Lexer.GetNextToken
  cases h : p.mLexer.input with
  | nil => simp [h]
  | cons t rest => simp

/-- Pulling a token shortens the stream by one, unless the stream is exhausted,
in which case the token pulled is the end of input. -/
theorem Parser.advance_cases (p : Parser) :
    p.advance.remaining + 1 = p.remaining
    ∨ (p.advance.remaining = 0 ∧ p.advance.mCurrentToken = Token.TOK_EOF) := by
  unfold Parser.advance Parser.remaining Lexer.GetNextToken
  cases h : p.mLexer.input with
  | nil => right; simp [h]
  | cons t rest => left; simp

theorem ParseVarDecl_remaining (pe : SubParser) (p q : Parser) (r : Option ASTNode)
    (h : ParseVarDecl pe p = .ok (r, q)) : q.remaining ≤ p.remaining := by
  rw [ParseVarDecl_eq] at h
  injection h with h
  injection h with _ h2
  subst h2
  cases p.mLexer.GetCurrentType with
  | VOID => exact Nat.le_refl _
  | OTHER name => exact p.advance_remaining_le

theorem ParseReturnStmt_remaining (pe : SubParser)
    (hmono : ∀ p r q, pe p = .ok (r, q) → q.remaining ≤ p.remaining)
    (p q : Parser) (r : Option ASTNode)
    (h : ParseReturnStmt pe p = .ok (r, q)) : q.remaining ≤ p.remaining := by
  unfold ParseReturnStmt at h
  cases he : pe p.advance with
  | error e => simp [he] at h
  | ok v =>
    obtain ⟨v, p2⟩ := v
    simp only [he] at h
    by_cases hs : p2.mCurrentToken = Token.SEMI_COLON
    · simp [hs] at h
    · simp [hs] at h
      obtain ⟨_, hq⟩ := h
      subst hq
      exact Nat.le_trans (hmono _ _ _ he) p.advance_remaining_le

theorem ParseCompoundStmt.skip_ok : ∀ (fuel : Nat) (p : Parser),
    p.remaining + 2 ≤ fuel →
    ∃ q, ParseCompoundStmt.skip fuel p = .ok q ∧ q.remaining ≤ p.remaining := by
  intro fuel
  induction fuel with
  | zero => intro p h; omega
  | succ f ih =>
    intro p h
    unfold ParseCompoundStmt.skip
    by_cases hc : p.mCurrentToken ≠ Token.RIGHT_BRACE ∧ p.mCurrentToken ≠ Token.TOK_EOF
    · rw [if_pos hc]
      rcases p.advance_cases with hdec | ⟨hz, heof⟩
      · obtain ⟨q, hq, hle⟩ := ih p.advance (by omega)
        exact ⟨q, hq, by omega⟩
      · obtain ⟨g, rfl⟩ : ∃ g, f = g + 1 := ⟨f - 1, by omega⟩
        refine ⟨p.advance, ?_, p.advance_remaining_le⟩
        unfold ParseCompoundStmt.skip
        simp [heof]
    · rw [if_neg hc]
      exact ⟨p, rfl, Nat.le_refl _⟩

/-- The dispatch of `ParseCompoundStmt` either stops on what `ParseExpr` or
`ParseReturnStmt` stopped on, or returns in a state that holds no more tokens
than before. -/
theorem ParseCompoundStmt.dispatch_progress (pe : SubParser)
    (hmono : ∀ p r q, pe p = .ok (r, q) → q.remaining ≤ p.remaining)
    (fuel : Nat) (node : Option ASTNode) (p : Parser) (hf : p.remaining + 2 ≤ fuel) :
    (∃ e, ParseCompoundStmt.dispatch pe fuel node p = .error e
        ∧ (pe p = .error e ∨ ParseReturnStmt pe p = .error e))
    ∨ (∃ n q, ParseCompoundStmt.dispatch pe fuel node p = .ok (n, q)
        ∧ q.remaining ≤ p.remaining) := by
  unfold ParseCompoundStmt.dispatch
  cases htok : p.mCurrentToken
  case VAR =>
    exact Or.inr ⟨_, _, ParseVarDecl_eq pe p,
      ParseVarDecl_remaining pe p _ _ (ParseVarDecl_eq pe p)⟩
  case IDENTIFIER =>
    cases hr : pe p with
    | error e => exact Or.inl ⟨e, rfl, Or.inl rfl⟩
    | ok v => exact Or.inr ⟨v.1, v.2, rfl, hmono p v.1 v.2 hr⟩
  case RETURN =>
    cases hr : ParseReturnStmt pe p with
    | error e => exact Or.inl ⟨e, rfl, Or.inr rfl⟩
    | ok v => exact Or.inr ⟨v.1, v.2, rfl, ParseReturnStmt_remaining pe hmono p v.2 v.1 hr⟩
  case FUNCTION =>
    obtain ⟨q, hq, hle⟩ := ParseCompoundStmt.skip_ok fuel p hf
    exact Or.inr ⟨node, q, by simp [hq], hle⟩
  all_goals exact Or.inr ⟨node, p, rfl, Nat.le_refl _⟩

theorem ParseCompoundStmt.dispatch_remaining (pe : SubParser)
    (hmono : ∀ p r q, pe p = .ok (r, q) → q.remaining ≤ p.remaining)
    (fuel : Nat) (node node1 : Option ASTNode) (p p1 : Parser)
    (h : ParseCompoundStmt.dispatch pe fuel node p = .ok (node1, p1)) :
    p1.remaining ≤ p.remaining := by
  unfold ParseCompoundStmt.dispatch at h
  cases htok : p.mCurrentToken <;> simp only [htok] at h
  case VAR => exact ParseVarDecl_remaining pe p _ _ h
  case IDENTIFIER => exact hmono _ _ _ h
  case RETURN => exact ParseReturnStmt_remaining pe hmono _ _ _ h
  case FUNCTION =>
    have key : ∀ (f : Nat) (a b : Parser), ParseCompoundStmt.skip f a = .ok b →
        b.remaining ≤ a.remaining := by
      intro f
      induction f with
      | zero => intro a b hab; simp [ParseCompoundStmt.skip] at hab
      | succ g ih =>
        intro a b hab
        unfold ParseCompoundStmt.skip at hab
        by_cases hc : a.mCurrentToken ≠ Token.RIGHT_BRACE ∧ a.mCurrentToken ≠ Token.TOK_EOF
        · rw [if_pos hc] at hab
          exact Nat.le_trans (ih _ _ hab) a.advance_remaining_le
        · rw [if_neg hc] at hab
          injection hab with hab
          subst hab
          exact Nat.le_refl _
    cases hs : ParseCompoundStmt.skip fuel p with
    | error e => simp [hs] at h
    | ok p2 =>
      simp [hs] at h
      obtain ⟨_, hq⟩ := h
      subst hq
      exact key fuel p _ hs
  all_goals
    injection h with h
    injection h with _ h2
    subst h2
    exact Nat.le_refl _

theorem ParseCompoundStmt.loop_step (pe : SubParser) (fuel : Nat) (cStmt : ASTNode)
    (node node1 : Option ASTNode) (p p1 : Parser)
    (h1 : p.mCurrentToken ≠ Token.RIGHT_BRACE) (h2 : p.mCurrentToken ≠ Token.TOK_EOF)
    (hd : ParseCompoundStmt.dispatch pe fuel node p = .ok (node1, p1)) :
    ParseCompoundStmt.loop pe (fuel + 1) cStmt node p
      = ParseCompoundStmt.loop pe fuel (cStmt.addStatm node1) none p1.advance := by
  simp [ParseCompoundStmt.loop, h1, h2, hd]

theorem ParseCompoundStmt.loop_exit (pe : SubParser) (fuel : Nat) (cStmt : ASTNode)
    (node : Option ASTNode) (p : Parser)
    (h : p.mCurrentToken = Token.RIGHT_BRACE ∨ p.mCurrentToken = Token.TOK_EOF) :
    ParseCompoundStmt.loop pe (fuel + 1) cStmt node p = .ok (cStmt, p) := by
  rcases h with h | h <;> simp [ParseCompoundStmt.loop, h]

/-- With fuel for the tokens left plus three, the statement loop ends: it
returns, or it stops on what `ParseExpr` or `ParseReturnStmt` stopped on. -/
theorem ParseCompoundStmt.loop_ends (pe : SubParser)
    (hmono : ∀ p r q, pe p = .ok (r, q) → q.remaining ≤ p.remaining) :
    ∀ (fuel : Nat) (cStmt : ASTNode) (node : Option ASTNode) (p : Parser),
      p.remaining + 3 ≤ fuel →
      (∃ r q, ParseCompoundStmt.loop pe fuel cStmt node p = .ok (r, q))
      ∨ (∃ e s, ParseCompoundStmt.loop pe fuel cStmt node p = .error e
          ∧ (pe s = .error e ∨ ParseReturnStmt pe s = .error e)) := by
  intro fuel
  induction fuel with
  | zero => intro cStmt node p h; omega
  | succ f ih =>
    intro cStmt node p h
    by_cases hc : p.mCurrentToken = Token.RIGHT_BRACE ∨ p.mCurrentToken = Token.TOK_EOF
    · exact Or.inl ⟨cStmt, p, ParseCompoundStmt.loop_exit pe f cStmt node p hc⟩
    · have h1 : p.mCurrentToken ≠ Token.RIGHT_BRACE := fun hh => hc (Or.inl hh)
      have h2 : p.mCurrentToken ≠ Token.TOK_EOF := fun hh => hc (Or.inr hh)
      rcases ParseCompoundStmt.dispatch_progress pe hmono f node p (by omega) with
        ⟨e, he, hsrc⟩ | ⟨n, q, hq, hle⟩
      · refine Or.inr ⟨e, p, ?_, hsrc⟩
        simp [ParseCompoundStmt.loop, h1, h2, he]
      · rw [ParseCompoundStmt.loop_step pe f cStmt node n p q h1 h2 hq]
        rcases q.advance_cases with hdec | ⟨_, heof⟩
        · exact ih _ _ _ (by omega)
        · obtain ⟨g, rfl⟩ : ∃ g, f = g + 1 := ⟨f - 1, by omega⟩
          exact Or.inl ⟨_, _, ParseCompoundStmt.loop_exit pe g _ _ _ (Or.inr heof)⟩

theorem ParseCallExpr.loop_remaining (pe : SubParser)
    (hmono : ∀ p r q, pe p = .ok (r, q) → q.remaining ≤ p.remaining) :
    ∀ (fuel : Nat) (args : ChildNodes) (p : Parser) (r : Option ChildNodes) (q : Parser),
      ParseCallExpr.loop pe fuel args p = .ok (r, q) → q.remaining ≤ p.remaining := by
  intro fuel
  induction fuel with
  | zero => intro args p r q h; simp [ParseCallExpr.loop] at h
  | succ f ih =>
    intro args p r q h
    unfold ParseCallExpr.loop at h
    by_cases hc : p.mCurrentToken ≠ Token.RIGHT_PAREN
    · rw [if_pos hc] at h
      cases he : pe p with
      | error e => simp [he] at h
      | ok v =>
        obtain ⟨arg, p1⟩ := v
        simp only [he] at h
        have hle := hmono _ _ _ he
        by_cases h1 : p1.mCurrentToken = Token.RIGHT_PAREN
        · simp [h1] at h
          rw [← h.2]; exact hle
        · by_cases h2 : p1.mCurrentToken = Token.COMMA
          · simp [h2] at h
            exact Nat.le_trans (ih _ _ _ _ h) (Nat.le_trans p1.advance_remaining_le hle)
          · simp [h1, h2] at h
            rw [← h.2]; exact hle
    · rw [if_neg hc] at h
      injection h with h
      injection h with _ h2
      rw [← h2]

theorem ParseCallExpr_remaining (pe : SubParser)
    (hmono : ∀ p r q, pe p = .ok (r, q) → q.remaining ≤ p.remaining)
    (fuel : Nat) (fn : ASTNode) (isSpawnedExpr : Bool) (p : Parser)
    (r : Option ASTNode) (q : Parser)
    (h : ParseCallExpr pe fuel fn isSpawnedExpr p = .ok (r, q)) :
    q.remaining ≤ p.remaining := by
  unfold ParseCallExpr at h
  cases hl : ParseCallExpr.loop pe fuel [] p.advance with
  | error e => simp [hl] at h
  | ok v =>
    obtain ⟨args, p1⟩ := v
    have hle := ParseCallExpr.loop_remaining pe hmono fuel [] p.advance args p1 hl
    have ha := p.advance_remaining_le
    cases args with
    | none =>
      simp [hl] at h
      rw [← h.2]; omega
    | some a =>
      have hb := p1.advance_remaining_le
      cases isSpawnedExpr <;> simp [hl] at h <;> (rw [← h.2]; omega)

theorem ParseBinaryOpExpr_remaining (tto : Token → Char) (pe : SubParser)
    (hmono : ∀ p r q, pe p = .ok (r, q) → q.remaining ≤ p.remaining)
    (op : Token) (lhs : Option ASTNode) (p : Parser) (r : Option ASTNode) (q : Parser)
    (h : ParseBinaryOpExpr tto pe op lhs p = .ok (r, q)) :
    q.remaining ≤ p.remaining := by
  unfold ParseBinaryOpExpr at h
  cases he : pe p.advance with
  | error e => simp [he] at h
  | ok v =>
    obtain ⟨rhs, p2⟩ := v
    have hle := hmono _ _ _ he
    have ha := p.advance_remaining_le
    simp only [he] at h
    cases rhs with
    | none =>
      simp at h
      rw [← h.2]; omega
    | some x =>
      cases hb : BinOpExp (tto op) lhs (some x) with
      | error e => simp [hb] at h
      | ok n =>
        simp [hb] at h
        rw [← h.2]; omega

/-- The `ParseExpr` modelled from the spec pushes nothing back: it returns in a
state that holds no more tokens than the one it was called in. -/
theorem ParseExpr_remaining : ∀ (k : Nat) (p : Parser) (r : Option ASTNode) (q : Parser),
    ParseExpr k p = .ok (r, q) → q.remaining ≤ p.remaining := by
  intro k
  induction k with
  | zero => intro p r q h; simp [ParseExpr] at h
  | succ k ih =>
    intro p r q h
    have hprim : ∀ (x : Run (Option ASTNode)),
        (∀ a b, x = .ok (a, b) → b.remaining ≤ p.remaining) →
        (match x with
          | .error e => (.error e : Run (Option ASTNode))
          | .ok (none, p1) => .ok (none, p1)
          | .ok (some lhs, p1) =>
            if p1.mCurrentToken.isBinaryOperator then
              ParseBinaryOpExpr TokenToOpcode (ParseExpr k) p1.mCurrentToken (some lhs) p1
            else .ok (some lhs, p1)) = .ok (r, q) →
        q.remaining ≤ p.remaining := by
      intro x hx hres
      cases x with
      | error e => simp at hres
      | ok v =>
        obtain ⟨a, b⟩ := v
        have hb := hx a b rfl
        cases a with
        | none =>
          simp at hres
          rw [← hres.2]; exact hb
        | some lhs =>
          simp only at hres
          by_cases hop : b.mCurrentToken.isBinaryOperator = true
          · rw [if_pos hop] at hres
            exact Nat.le_trans (ParseBinaryOpExpr_remaining TokenToOpcode (ParseExpr k) ih
              _ _ _ _ _ hres) hb
          · rw [if_neg hop] at hres
            injection hres with hres
            injection hres with _ h2
            rw [← h2]; exact hb
    unfold ParseExpr at h
    refine hprim _ ?_ h
    intro a b hab
    cases htok : p.mCurrentToken <;> simp only [htok] at hab
    case NUMBER =>
      injection hab with hab
      injection hab with _ h2
      rw [← h2]; exact p.advance_remaining_le
    case STRING =>
      injection hab with hab
      injection hab with _ h2
      rw [← h2]; exact p.advance_remaining_le
    case IDENTIFIER =>
      by_cases hlp : p.advance.mCurrentToken = Token.LEFT_PAREN
      · simp only [hlp, if_true] at hab
        exact Nat.le_trans (ParseCallExpr_remaining (ParseExpr k) ih k _ false _ _ _ hab)
          p.advance_remaining_le
      · simp only [hlp, if_false] at hab
        injection hab with hab
        injection hab with _ h2
        rw [← h2]; exact p.advance_remaining_le
    all_goals
      injection hab with hab
      injection hab with _ h2
      rw [← h2]

/-- C13: every pass of the statement loop of `ParseCompoundStmt` pulls a token
(the unconditional `GetNextToken` that ends the pass), so the stream gets
shorter or its end is reached.  Hence, with a `ParseExpr` that pushes nothing
back, `ParseCompoundStmt` does not loop for ever, whatever the block holds:
with fuel for the tokens left plus three the run ends, either by returning or
by stopping where `ParseExpr` or `ParseReturnStmt` stopped. -/
theorem C13_ParseCompoundStmt_terminates (pe : SubParser)
    (hmono : ∀ p r q, pe p = .ok (r, q) → q.remaining ≤ p.remaining) :
    (∀ (fuel : Nat) (cStmt : ASTNode) (node node1 : Option ASTNode) (p p1 : Parser),
      p.mCurrentToken ≠ Token.RIGHT_BRACE → p.mCurrentToken ≠ Token.TOK_EOF →
      ParseCompoundStmt.dispatch pe fuel node p = .ok (node1, p1) →
        ParseCompoundStmt.loop pe (fuel + 1) cStmt node p
          = ParseCompoundStmt.loop pe fuel (cStmt.addStatm node1) none p1.advance
        ∧ (p1.advance.remaining < p.remaining
            ∨ p1.advance.mCurrentToken = Token.TOK_EOF))
    ∧ (∀ (p : Parser) (fuel : Nat), p.remaining + 3 ≤ fuel →
        (∃ r q, ParseCompoundStmt pe fuel p = .ok (r, q))
        ∨ (∃ e s, ParseCompoundStmt pe fuel p = .error e
            ∧ (pe s = .error e ∨ ParseReturnStmt pe s = .error e))) := by
  constructor
  · intro fuel cStmt node node1 p p1 h1 h2 hd
    refine ⟨ParseCompoundStmt.loop_step pe fuel cStmt node node1 p p1 h1 h2 hd, ?_⟩
    have hle := ParseCompoundStmt.dispatch_remaining pe hmono fuel node node1 p p1 hd
    rcases p1.advance_cases with hdec | ⟨_, heof⟩
    · left; omega
    · right; exact heof
  · intro p fuel hf
    unfold ParseCompoundStmt
    by_cases hb : p.mCurrentToken ≠ Token.LEFT_BRACE
    · rw [if_pos hb]
      exact Or.inl ⟨none, p, rfl⟩
    · rw [if_neg hb]
      rcases ParseCompoundStmt.loop_ends pe hmono fuel ComplexStatm none
        p.advance (by have := p.advance_remaining_le; omega) with
        ⟨r, q, hr⟩ | ⟨e, s, hr, hsrc⟩
      · refine Or.inl ⟨some r, q, ?_⟩
        by_cases hq : q.mCurrentToken ≠ Token.RIGHT_BRACE <;> simp [hr, hq]
      · exact Or.inr ⟨e, s, by simp [hr], hsrc⟩

/-- C13 with the `ParseExpr` modelled from the spec, on the streams of
`{ x ; y ; } ;` (seven tokens after the opening brace) and of
`{ var x : int = 1; return x; }` (ten tokens after it). -/
theorem C13_ParseCompoundStmt_terminates_witness :
    ((∃ r q, ParseCompoundStmt (ParseExpr 3) 10 (Parser.start exprBlockInput) = .ok (r, q))
      ∨ (∃ e s, ParseCompoundStmt (ParseExpr 3) 10 (Parser.start exprBlockInput) = .error e
          ∧ (ParseExpr 3 s = .error e ∨ ParseReturnStmt (ParseExpr 3) s = .error e)))
    ∧ ((∃ r q, ParseCompoundStmt (ParseExpr 3) 13 (Parser.start blockInput) = .ok (r, q))
      ∨ (∃ e s, ParseCompoundStmt (ParseExpr 3) 13 (Parser.start blockInput) = .error e
          ∧ (ParseExpr 3 s = .error e ∨ ParseReturnStmt (ParseExpr 3) s = .error e))) :=
  ⟨(C13_ParseCompoundStmt_terminates (ParseExpr 3) (ParseExpr_remaining 3)).2
      (Parser.start exprBlockInput) 10 (by decide),
   (C13_ParseCompoundStmt_terminates (ParseExpr 3) (ParseExpr_remaining 3)).2
      (Parser.start blockInput) 13 (by decide)⟩

/-! ## The children of a program -/

theorem ParseProgramDecl.skip_stops : ∀ (fuel : Nat) (p q : Parser),
    ParseProgramDecl.skip fuel p = .ok q →
    q.mCurrentToken = Token.VAR ∨ q.mCurrentToken = Token.FUNCTION
      ∨ q.mCurrentToken = Token.TOK_EOF := by
  intro fuel
  induction fuel with
  | zero => intro p q h; simp [ParseProgramDecl.skip] at h
  | succ f ih =>
    intro p q h
    unfold ParseProgramDecl.skip at h
    by_cases hc : p.mCurrentToken ≠ Token.VAR ∧ p.mCurrentToken ≠ Token.FUNCTION
        ∧ p.mCurrentToken ≠ Token.TOK_EOF
    · rw [if_pos hc] at h
      exact ih _ _ h
    · rw [if_neg hc] at h
      injection h with h
      subst h
      by_cases h1 : p.mCurrentToken = Token.VAR
      · exact Or.inl h1
      · by_cases h2 : p.mCurrentToken = Token.FUNCTION
        · exact Or.inr (Or.inl h2)
        · by_cases h3 : p.mCurrentToken = Token.TOK_EOF
          · exact Or.inr (Or.inr h3)
          · exact absurd ⟨h1, h2, h3⟩ hc

/-- The node the dispatch of `ParseProgramDecl` leaves in `node` is one a
program may hold, as soon as the `node` it starts from is one, or the current
token is one of those the recovery loop stops on. -/
theorem ParseProgramDecl.dispatch_child (pf pe : SubParser)
    (hpf : ∀ p r q, pf p = .ok (r, q) → ProgramChildOk r)
    (node node1 : Option ASTNode) (p p1 : Parser)
    (hinv : ProgramChildOk node ∨ p.mCurrentToken = Token.VAR
      ∨ p.mCurrentToken = Token.FUNCTION ∨ p.mCurrentToken = Token.TOK_EOF)
    (hne : p.mCurrentToken ≠ Token.TOK_EOF)
    (h : ParseProgramDecl.dispatch pf pe node p = .ok (node1, p1)) :
    ProgramChildOk node1 := by
  unfold ParseProgramDecl.dispatch at h
  cases htok : p.mCurrentToken <;> simp only [htok] at h
  case VAR =>
    exact ⟨VarDecl.default, ParseVarDecl_ok pe p p1 node1 h, Or.inr (Or.inr rfl)⟩
  case FUNCTION => exact hpf _ _ _ h
  case TOK_EOF => exact absurd htok hne
  all_goals
    injection h with h
    injection h with h1 _
    subst h1
    rcases hinv with hok | hv | hf | he
    · exact hok
    · rw [htok] at hv; cases hv
    · rw [htok] at hf; cases hf
    · rw [htok] at he; cases he

theorem ParseProgramDecl.loop_children (pf pe : SubParser)
    (hpf : ∀ p r q, pf p = .ok (r, q) → ProgramChildOk r) :
    ∀ (fuel : Nat) (prog : ASTNode) (node : Option ASTNode) (p : Parser)
      (r : ASTNode) (q : Parser),
      ParseProgramDecl.loop pf pe fuel prog node p = .ok (r, q) →
      (ProgramChildOk node ∨ p.mCurrentToken = Token.VAR
        ∨ p.mCurrentToken = Token.FUNCTION ∨ p.mCurrentToken = Token.TOK_EOF) →
      prog.getType = NodeType.PROG_DECL →
      (∀ c ∈ prog.getChildNodes, ProgramChildOk c) →
      r.getType = NodeType.PROG_DECL ∧ ∀ c ∈ r.getChildNodes, ProgramChildOk c := by
  intro fuel
  induction fuel with
  | zero => intro prog node p r q h; simp [ParseProgramDecl.loop] at h
  | succ f ih =>
    intro prog node p r q h hinv hty hch
    unfold ParseProgramDecl.loop at h
    by_cases hc : p.mCurrentToken ≠ Token.TOK_EOF
    · rw [if_pos hc] at h
      cases hd : ParseProgramDecl.dispatch pf pe node p with
      | error e => simp [hd] at h
      | ok v =>
        obtain ⟨node1, p1⟩ := v
        simp only [hd] at h
        cases hs : ParseProgramDecl.skip f p1 with
        | error e => simp [hs] at h
        | ok p2 =>
          simp only [hs] at h
          have hok := ParseProgramDecl.dispatch_child pf pe hpf node node1 p p1 hinv hc hd
          refine ih _ _ _ _ _ h (Or.inr (ParseProgramDecl.skip_stops f p1 p2 hs)) ?_ ?_
          · cases prog; exact hty
          · intro c hcm
            cases prog with
            | mk t n ch m =>
              simp [ASTNode.addProgramDecl, ASTNode.addChildNode, ASTNode.getChildNodes] at hcm
              rcases hcm with hcm | hcm
              · exact hch c hcm
              · rw [hcm]; exact hok
    · rw [if_neg hc] at h
      injection h with h
      injection h with h1 _
      subst h1
      exact ⟨hty, hch⟩

/-- C17: when `ParseFunctionDecl` hands back a present node tagged `FUN_DECL` or
`ERROR`, every child of the node `ParseProgramDecl` returns is a present node
tagged `VAR_DECL`, `FUN_DECL` or `ERROR`, and the node itself is tagged
`PROG_DECL`; each pass of the declaration loop appends exactly one child; the
stream that holds the end of input only gives a program without children. -/
theorem C17_ParseProgramDecl_children (pf pe : SubParser)
    (hpf : ∀ p r q, pf p = .ok (r, q) → ProgramChildOk r) :
    (∀ (fuel : Nat) (p q : Parser) (r : Option ASTNode),
      ParseProgramDecl pf pe fuel p = .ok (r, q) →
      ∃ prog : ASTNode, r = some prog ∧ prog.getType = NodeType.PROG_DECL
        ∧ ∀ c ∈ prog.getChildNodes, ProgramChildOk c)
    ∧ (∀ (fuel : Nat) (prog : ASTNode) (node node1 : Option ASTNode) (p p1 p2 : Parser),
        p.mCurrentToken ≠ Token.TOK_EOF →
        ParseProgramDecl.dispatch pf pe node p = .ok (node1, p1) →
        ParseProgramDecl.skip fuel p1 = .ok p2 →
        ParseProgramDecl.loop pf pe (fuel + 1) prog node p
          = ParseProgramDecl.loop pf pe fuel (prog.addProgramDecl node1) none p2
        ∧ (prog.addProgramDecl node1).getChildNodes = prog.getChildNodes ++ [node1])
    ∧ (∀ fuel : Nat,
        ParseProgramDecl pf pe (fuel + 1) (Parser.init [tk Token.TOK_EOF])
          = .ok (some ProgramDecl, Parser.start [tk Token.TOK_EOF])
        ∧ ProgramDecl.getChildNodes = []) := by
  refine ⟨?_, ?_, fun fuel => ⟨rfl, rfl⟩⟩
  · intro fuel p q r h
    unfold ParseProgramDecl at h
    cases hl : ParseProgramDecl.loop pf pe fuel ProgramDecl (some Decl) p.advance with
    | error e => simp [hl] at h
    | ok v =>
      obtain ⟨prog, p1⟩ := v
      simp only [hl] at h
      injection h with h
      injection h with h1 _
      subst h1
      obtain ⟨hty, hch⟩ := ParseProgramDecl.loop_children pf pe hpf fuel ProgramDecl
        (some Decl) p.advance prog p1 hl
        (Or.inl ⟨Decl, rfl, Or.inr (Or.inr rfl)⟩) rfl
        (fun c hc => by simp [ProgramDecl, ASTNode.getChildNodes] at hc)
      exact ⟨prog, rfl, hty, hch⟩
  · intro fuel prog node node1 p p1 p2 hne hd hs
    constructor
    · simp [ParseProgramDecl.loop, hne, hd, hs]
    · cases prog; rfl

theorem failedFunctionDecl_child (p : Parser) (r : Option ASTNode) (q : Parser)
    (h : failedFunctionDecl p = .ok (r, q)) : ProgramChildOk r := by
  unfold failedFunctionDecl at h
  injection h with h
  injection h with h1 _
  subst h1
  exact ⟨FunDecl.default, rfl, Or.inr (Or.inr rfl)⟩

/-- C17 on the stream of `; var x : int ; function f var y : int`: four passes,
four children, all present: the node of `Decl()`, the placeholder of
`ParseVarDecl` twice and the node of `FunDecl()`. -/
theorem C17_ParseProgramDecl_children_witness :
    ParseProgramDecl failedFunctionDecl (ParseExpr 1) 6 (Parser.init declsInput)
      = .ok (some (ASTNode.mk NodeType.PROG_DECL ""
            [some Decl, some VarDecl.default, some FunDecl.default, some VarDecl.default]
            Members.none),
          (Parser.start [tk Token.TOK_EOF]).advance)
    ∧ ∃ prog : ASTNode,
        some (ASTNode.mk NodeType.PROG_DECL ""
            [some Decl, some VarDecl.default, some FunDecl.default, some VarDecl.default]
            Members.none) = some prog
        ∧ prog.getType = NodeType.PROG_DECL
        ∧ ∀ c ∈ prog.getChildNodes, ProgramChildOk c :=
  ⟨rfl, (C17_ParseProgramDecl_children failedFunctionDecl (ParseExpr 1)
    failedFunctionDecl_child).1 6 (Parser.init declsInput) _ _ rfl⟩

/-! ## Blocks of expression statements, and trailing commas -/

theorem ParseCompoundStmt.loop_StmtList (pe : SubParser) {p r : Parser}
    {as : List ASTNode} (h : StmtList pe p as r) :
    r.mCurrentToken = Token.RIGHT_BRACE
    ∧ ∀ (fuel : Nat) (t : NodeType) (n : String) (c : ChildNodes) (m : Members),
      as.length + 1 ≤ fuel →
      ParseCompoundStmt.loop pe fuel (ASTNode.mk t n c m) none p
        = .ok (ASTNode.mk t n (c ++ as.map some) m, r) := by
  induction h with
  | done hp =>
    refine ⟨hp, fun fuel t n c m hf => ?_⟩
    obtain ⟨f, rfl⟩ : ∃ f, fuel = f + 1 := ⟨fuel - 1, by omega⟩
    rw [ParseCompoundStmt.loop_exit pe f _ _ _ (Or.inl hp)]
    simp
  | @stmt p0 q0 r0 a0 as0 hp he hq _ ih =>
    refine ⟨ih.1, fun fuel t n c m hf => ?_⟩
    obtain ⟨f, rfl⟩ : ∃ f, fuel = f + 1 := ⟨fuel - 1, by omega⟩
    have hd : ParseCompoundStmt.dispatch pe f none p0 = .ok (some a0, q0) := by
      simp [ParseCompoundStmt.dispatch, hp, he]
    rw [ParseCompoundStmt.loop_step pe f _ none (some a0) p0 q0 (by rw [hp]; decide)
      (by rw [hp]; decide) hd]
    simp only [ASTNode.addStatm, ASTNode.addChildNode]
    rw [ih.2 f t n _ m (by simp at hf; omega)]
    simp

theorem ParseCallExpr.loop_ArgListComma (pe : SubParser) {p r : Parser}
    {as : List ASTNode} (h : ArgListComma pe p as r) :
    ∀ (fuel : Nat) (args : ChildNodes), as.length + 1 ≤ fuel →
      ParseCallExpr.loop pe fuel args p = .ok (some (args ++ as.map some), r) := by
  induction h with
  | last hp he hq hr =>
    intro fuel args hf
    obtain ⟨f, rfl⟩ : ∃ f, fuel = f + 2 := ⟨fuel - 2, by simp at hf; omega⟩
    rw [ParseCallExpr.loop_comma pe (f + 1) args _ _ _ hp he hq]
    simp [ParseCallExpr.loop, hr]
  | cons hp he hq _ ih =>
    intro fuel args hf
    obtain ⟨f, rfl⟩ : ∃ f, fuel = f + 1 := ⟨fuel - 1, by omega⟩
    rw [ParseCallExpr.loop_comma pe f args _ _ _ hp he hq, ih f _ (by simp at hf; omega)]
    simp

/-- C19 (as stated, fails): on the stream of `{ } ;` the routine
`ParseCompoundStmt` returns the empty block with the closing brace as current
token; the token that follows the brace, the semicolon, has not been pulled. -/
theorem C19_counterexample :
    ParseCompoundStmt (ParseExpr 1) 1 (Parser.start emptyBlockInput)
      = .ok (some ComplexStatm,
          Parser.start [tk Token.RIGHT_BRACE, tk Token.SEMI_COLON, tk Token.TOK_EOF])
    ∧ (Parser.start [tk Token.RIGHT_BRACE, tk Token.SEMI_COLON, tk Token.TOK_EOF]).mCurrentToken
        = Token.RIGHT_BRACE
    ∧ (Parser.start [tk Token.RIGHT_BRACE, tk Token.SEMI_COLON, tk Token.TOK_EOF]).mCurrentToken
        ≠ Token.SEMI_COLON :=
  ⟨rfl, rfl, by decide⟩

/-- C19 (amended): for a block `{ e1 ; ... ; en ; }` of expression statements
(n >= 0), `ParseCompoundStmt` returns the `CompoundStmt` whose children are
exactly the nodes of `e1 .. en`, in order; the opening brace has been pulled,
neither brace is stored, and the current token is the closing brace itself,
which is left to the caller. -/
theorem C19_ParseCompoundStmt_delimiters (pe : SubParser) (p r : Parser)
    (as : List ASTNode) (hb : p.mCurrentToken = Token.LEFT_BRACE)
    (hs : StmtList pe p.advance as r) (fuel : Nat) (hf : as.length + 1 ≤ fuel) :
    ParseCompoundStmt pe fuel p
      = .ok (some (ASTNode.mk NodeType.COMPEX_STATM "" (as.map some) Members.none), r)
    ∧ r.mCurrentToken = Token.RIGHT_BRACE := by
  obtain ⟨hr, hl⟩ := ParseCompoundStmt.loop_StmtList pe hs
  refine ⟨?_, hr⟩
  simp [ParseCompoundStmt, hb, ComplexStatm, hl fuel _ _ _ _ hf]

/-- The amended C19 on the stream of `{ x ; y ; } ;`. -/
theorem C19_ParseCompoundStmt_delimiters_witness :
    ParseCompoundStmt (ParseExpr 1) 3 (Parser.start exprBlockInput)
      = .ok (some (ASTNode.mk NodeType.COMPEX_STATM ""
            [some (IdentifierExp "x"), some (IdentifierExp "y")] Members.none),
          Parser.start [tk Token.RIGHT_BRACE, tk Token.SEMI_COLON, tk Token.TOK_EOF])
    ∧ (Parser.start [tk Token.RIGHT_BRACE, tk Token.SEMI_COLON, tk Token.TOK_EOF]).mCurrentToken
        = Token.RIGHT_BRACE :=
  C19_ParseCompoundStmt_delimiters (ParseExpr 1) (Parser.start exprBlockInput)
    (Parser.start [tk Token.RIGHT_BRACE, tk Token.SEMI_COLON, tk Token.TOK_EOF])
    [IdentifierExp "x", IdentifierExp "y"] rfl
    (StmtList.stmt
      (q := Parser.start [tk Token.SEMI_COLON, ident "y", tk Token.SEMI_COLON,
        tk Token.RIGHT_BRACE, tk Token.SEMI_COLON, tk Token.TOK_EOF])
      rfl rfl rfl
      (StmtList.stmt
        (q := Parser.start [tk Token.SEMI_COLON, tk Token.RIGHT_BRACE, tk Token.SEMI_COLON,
          tk Token.TOK_EOF])
        rfl rfl rfl (StmtList.done rfl)))
    3 (by decide)

/-- C20: `ParseCallExpr` accepts a trailing comma.  When the source
`f(a1, ..., an,)` is at `p` and the source `f(a1, ..., an)` is at `p2`, with the
same argument nodes, both calls return the same `CallExp`, named after the
callee and holding the n arguments in order; after the last comma the loop
condition sees the closing parenthesis and the loop is left. -/
theorem C20_ParseCallExpr_trailing_comma (pe : SubParser) (fn : ASTNode)
    (p p2 q r : Parser) (as : List ASTNode)
    (h1 : ArgListComma pe p.advance as r) (h2 : ArgList pe p2.advance as q)
    (fuel : Nat) (hf : as.length + 1 ≤ fuel) :
    ParseCallExpr pe fuel fn false p
      = .ok (some (CallExp fn.getName (as.map some)), r.advance)
    ∧ ParseCallExpr pe fuel fn false p2
      = .ok (some (CallExp fn.getName (as.map some)), q.advance) := by
  constructor
  · simp [ParseCallExpr, ParseCallExpr.loop_ArgListComma pe h1 fuel [] hf]
  · simp [ParseCallExpr, ParseCallExpr.loop_ArgList pe h2 fuel [] (by omega)]

/-- C20 on the streams of `f(1, 2,);` and `f(1, 2);`. -/
theorem C20_ParseCallExpr_trailing_comma_witness :
    ParseCallExpr (ParseExpr 1) 3 (IdentifierExp "f") false (Parser.start trailingCommaInput)
      = .ok (some (CallExp "f" [some (NumExp 1), some (NumExp 2)]),
          Parser.start [tk Token.SEMI_COLON, tk Token.TOK_EOF])
    ∧ ParseCallExpr (ParseExpr 1) 3 (IdentifierExp "f") false (Parser.start twoArgsInput)
      = .ok (some (CallExp "f" [some (NumExp 1), some (NumExp 2)]),
          Parser.start [tk Token.SEMI_COLON, tk Token.TOK_EOF]) :=
  C20_ParseCallExpr_trailing_comma (ParseExpr 1) (IdentifierExp "f")
    (Parser.start trailingCommaInput) (Parser.start twoArgsInput)
    (Parser.start [tk Token.RIGHT_PAREN, tk Token.SEMI_COLON, tk Token.TOK_EOF])
    (Parser.start [tk Token.RIGHT_PAREN, tk Token.SEMI_COLON, tk Token.TOK_EOF])
    [NumExp 1, NumExp 2]
    (ArgListComma.cons
      (q := Parser.start [tk Token.COMMA, num "2", tk Token.COMMA, tk Token.RIGHT_PAREN,
        tk Token.SEMI_COLON, tk Token.TOK_EOF])
      (by decide) rfl rfl
      (ArgListComma.last
        (q := Parser.start [tk Token.COMMA, tk Token.RIGHT_PAREN, tk Token.SEMI_COLON,
          tk Token.TOK_EOF])
        (by decide) rfl rfl rfl))
    (ArgList.cons
      (q := Parser.start [tk Token.COMMA, num "2", tk Token.RIGHT_PAREN,
        tk Token.SEMI_COLON, tk Token.TOK_EOF])
      (by decide) rfl rfl
      (ArgList.last (by decide) rfl rfl))
    3 (by decide)

/-! ## A function token inside a block -/

theorem ParseCompoundStmt.loop_StmtRun (pe : SubParser) {p r : Parser}
    {bs : List ASTNode} (h : StmtRun pe p bs r) :
    ∀ (fuel : Nat) (t : NodeType) (n : String) (c : ChildNodes) (m : Members),
      ParseCompoundStmt.loop pe (fuel + bs.length) (ASTNode.mk t n c m) none p
        = ParseCompoundStmt.loop pe fuel (ASTNode.mk t n (c ++ bs.map some) m) none r := by
  induction h with
  | none p => intro fuel t n c m; simp
  | @stmt p0 q0 r0 a0 as0 hp he hq _ ih =>
    intro fuel t n c m
    have hd : ParseCompoundStmt.dispatch pe (fuel + as0.length) none p0
        = .ok (some a0, q0) := by
      simp [ParseCompoundStmt.dispatch, hp, he]
    have hlen : fuel + (a0 :: as0).length = (fuel + as0.length) + 1 := by
      simp [Nat.add_assoc]
    rw [hlen, ParseCompoundStmt.loop_step pe _ _ none (some a0) p0 q0 (by rw [hp]; decide)
      (by rw [hp]; decide) hd]
    simp only [ASTNode.addStatm, ASTNode.addChildNode]
    rw [ih fuel t n _ m]
    simp

theorem ParseCompoundStmt.skip_NextBrace {p q : Parser} (h : NextBrace p q) :
    q.mCurrentToken = Token.RIGHT_BRACE
    ∧ ∃ k, ∀ fuel, k ≤ fuel → ParseCompoundStmt.skip fuel p = .ok q := by
  induction h with
  | here hq =>
    refine ⟨hq, 1, fun fuel hf => ?_⟩
    obtain ⟨f, rfl⟩ : ∃ f, fuel = f + 1 := ⟨fuel - 1, by omega⟩
    simp [ParseCompoundStmt.skip, hq]
  | skip h1 h2 _ ih =>
    obtain ⟨hq, k, hk⟩ := ih
    refine ⟨hq, k + 1, fun fuel hf => ?_⟩
    obtain ⟨f, rfl⟩ : ∃ f, fuel = f + 1 := ⟨fuel - 1, by omega⟩
    simp [ParseCompoundStmt.skip, h1, h2, hk f (by omega)]

theorem reduceOption_map_some (l : List ASTNode) : (l.map some).reduceOption = l := by
  induction l with
  | nil => rfl
  | cons a t ih => simp [List.reduceOption_cons_of_some, ih]

/-- C11 (amended): in a block `{ b1 ; ... ; bm ; function ... } a1 ; ... ; an ; }`
of expression statements, the function token makes `ParseCompoundStmt` scan
forward to the next closing brace, and nothing between the function token and
that brace becomes a node of the block.  The block does not end there: the
pass ends with the usual pull, which steps over that brace, and the statements
that follow are parsed into the same block, which ends at the next closing
brace, left as current token.  The present children of the node returned are
the nodes of `b1 .. bm` followed by the nodes of `a1 .. an`. -/
theorem C11_ParseCompoundStmt_function_token (pe : SubParser)
    (p f q r : Parser) (bs as : List ASTNode)
    (hb : p.mCurrentToken = Token.LEFT_BRACE)
    (hbs : StmtRun pe p.advance bs f)
    (hf : f.mCurrentToken = Token.FUNCTION)
    (hq : NextBrace f q)
    (has : StmtList pe q.advance as r) :
    q.mCurrentToken = Token.RIGHT_BRACE
    ∧ r.mCurrentToken = Token.RIGHT_BRACE
    ∧ ∃ n : Nat, ∀ fuel, n ≤ fuel →
        ∃ cStmt : ASTNode,
          ParseCompoundStmt pe fuel p = .ok (some cStmt, r)
          ∧ cStmt.getType = NodeType.COMPEX_STATM
          ∧ cStmt.getChildNodes.reduceOption = bs ++ as := by
  obtain ⟨hqb, k, hk⟩ := ParseCompoundStmt.skip_NextBrace hq
  obtain ⟨hr, hl⟩ := ParseCompoundStmt.loop_StmtList pe has
  refine ⟨hqb, hr, bs.length + (k + as.length + 2), fun fuel hfuel => ?_⟩
  obtain ⟨g, rfl⟩ : ∃ g, fuel = (g + (k + as.length + 1) + 1) + bs.length :=
    ⟨fuel - (bs.length + (k + as.length + 2)), by omega⟩
  refine ⟨ASTNode.mk NodeType.COMPEX_STATM "" (bs.map some ++ none :: as.map some)
    Members.none, ?_, rfl, ?_⟩
  · have hd : ParseCompoundStmt.dispatch pe (g + (k + as.length + 1)) none f
        = .ok (none, q) := by
      simp [ParseCompoundStmt.dispatch, hf, hk (g + (k + as.length + 1)) (by omega)]
    have hloop : ParseCompoundStmt.loop pe ((g + (k + as.length + 1) + 1) + bs.length)
        ComplexStatm none p.advance
        = .ok (ASTNode.mk NodeType.COMPEX_STATM "" (bs.map some ++ none :: as.map some)
            Members.none, r) := by
      unfold ComplexStatm
      rw [ParseCompoundStmt.loop_StmtRun pe hbs,
        ParseCompoundStmt.loop_step pe _ _ none none f q (by rw [hf]; decide)
          (by rw [hf]; decide) hd]
      simp only [ASTNode.addStatm, ASTNode.addChildNode]
      rw [hl _ _ _ _ _ (by omega)]
      simp
    simp [ParseCompoundStmt, hb, hloop]
  · simp [ASTNode.getChildNodes, List.reduceOption_append,
      List.reduceOption_cons_of_none, reduceOption_map_some]

/-- The amended C11 on the stream of `{ x ; function g } y ; } ;`. -/
theorem C11_ParseCompoundStmt_function_token_witness :
    (Parser.start [tk Token.RIGHT_BRACE, ident "y", tk Token.SEMI_COLON,
        tk Token.RIGHT_BRACE, tk Token.SEMI_COLON, tk Token.TOK_EOF]).mCurrentToken
      = Token.RIGHT_BRACE
    ∧ (Parser.start [tk Token.RIGHT_BRACE, tk Token.SEMI_COLON,
        tk Token.TOK_EOF]).mCurrentToken = Token.RIGHT_BRACE
    ∧ ∃ n : Nat, ∀ fuel, n ≤ fuel →
        ∃ cStmt : ASTNode,
          ParseCompoundStmt (ParseExpr 1) fuel (Parser.start functionInBlockInput)
            = .ok (some cStmt, Parser.start [tk Token.RIGHT_BRACE, tk Token.SEMI_COLON,
                tk Token.TOK_EOF])
          ∧ cStmt.getType = NodeType.COMPEX_STATM
          ∧ cStmt.getChildNodes.reduceOption
              = [IdentifierExp "x"] ++ [IdentifierExp "y"] :=
  C11_ParseCompoundStmt_function_token (ParseExpr 1)
    (Parser.start functionInBlockInput)
    (Parser.start [tk Token.FUNCTION, ident "g", tk Token.RIGHT_BRACE, ident "y",
      tk Token.SEMI_COLON, tk Token.RIGHT_BRACE, tk Token.SEMI_COLON, tk Token.TOK_EOF])
    (Parser.start [tk Token.RIGHT_BRACE, ident "y", tk Token.SEMI_COLON,
      tk Token.RIGHT_BRACE, tk Token.SEMI_COLON, tk Token.TOK_EOF])
    (Parser.start [tk Token.RIGHT_BRACE, tk Token.SEMI_COLON, tk Token.TOK_EOF])
    [IdentifierExp "x"] [IdentifierExp "y"]
    rfl
    (StmtRun.stmt
      (q := Parser.start [tk Token.SEMI_COLON, tk Token.FUNCTION, ident "g",
        tk Token.RIGHT_BRACE, ident "y", tk Token.SEMI_COLON, tk Token.RIGHT_BRACE,
        tk Token.SEMI_COLON, tk Token.TOK_EOF])
      rfl rfl rfl (StmtRun.none _))
    rfl
    (NextBrace.skip (by decide) (by decide)
      (NextBrace.skip (by decide) (by decide) (NextBrace.here rfl)))
    (StmtList.stmt
      (q := Parser.start [tk Token.SEMI_COLON, tk Token.RIGHT_BRACE, tk Token.SEMI_COLON,
        tk Token.TOK_EOF])
      rfl rfl rfl (StmtList.done rfl))

end ParserSpec
